import Mathlib

/-!
# Assembly of bilinear forms (`fem/bilinearform.cpp`)

A shallow embedding of `BilinearForm` from `fem/bilinearform.cpp`.

Scalars (`double` in the source) are elements of a commutative ring `α` with
decidable equality, so every statement below is about exact arithmetic; rounding is
not modelled.  Index arrays (`Array<int>`) are `List Int`.

The finite element space, the mesh and the integrators are external collaborators:
they appear as records of the queries the source makes on them.  The sparse and dense
matrix classes and the `Table` class are declared outside `fem/bilinearform.cpp`;
their operations are modelled from the specification and marked as such.

The build flags `MFEM_DEBUG` and `MFEM_USE_OPENMP` are Boolean parameters where the
source tests them.  A `NULL` operator that the source would dereference makes the
model return `none`.
-/

namespace mfem

/-! ## Linear algebra collaborators -/

/-- Modelled from the spec: the class `Vector` (declared in `linalg/`) is missing; a
vector is its entry function, `v(i)` is `v i`. -/
abbrev Vector (α : Type) := Nat → α

/-- Modelled from the spec: the class `DenseMatrix` is missing; a "dense local matrix"
with its extents and its entry function `m(i,j)`. -/
structure DenseMatrix (α : Type) where
  height : Nat
  width : Nat
  data : Nat → Nat → α

/-- Modelled from the spec: `DenseMatrix::operator+=` is missing; "summing all
registered domain integrators' contributions" entry by entry over the extents of the
left operand. -/
def DenseMatrix.add {α : Type} [Add α] (m t : DenseMatrix α) : DenseMatrix α :=
  { m with data := fun i j => if i < m.height ∧ j < m.width then m.data i j + t.data i j
                              else m.data i j }

/-- Modelled from the spec: `elmat.SetSize(n); elmat = 0.0` on the missing class
`DenseMatrix`. -/
def DenseMatrix.zero {α : Type} [Zero α] (n : Nat) : DenseMatrix α :=
  { height := n, width := n, data := fun _ _ => 0 }

/-- Modelled from the spec: the class `DenseTensor` is missing; "a 3-dimensional dense
array (dof × dof × element) caching one local matrix per element". -/
structure DenseTensor (α : Type) where
  SizeI : Nat
  SizeJ : Nat
  SizeK : Nat
  data : Nat → Nat → Nat → α

/-- Modelled from the spec: `DenseTensor::operator()(k)`, the `k`-th cached local
matrix. -/
def DenseTensor.get {α : Type} (T : DenseTensor α) (k : Nat) : DenseMatrix α :=
  { height := T.SizeI, width := T.SizeJ, data := T.data k }

/-- Modelled from the spec: writing the local matrix `m` into slot `k` of the missing
class `DenseTensor` (the source wraps the slot in a `DenseMatrix` and lets the
integrators fill it). -/
def DenseTensor.set {α : Type} (T : DenseTensor α) (k : Nat) (m : DenseMatrix α) :
    DenseTensor α :=
  { T with data := fun k2 => if k2 = k then m.data else T.data k2 }

/-- Modelled from the spec: the class `SparseMatrix` is missing; the "global operator"
with its extents, its sparsity pattern ("the set of (row,col) index pairs for which a
matrix is permitted to store a nonzero value") and its entries (zero where nothing is
stored). -/
structure SparseMatrix (α : Type) where
  height : Nat
  width : Nat
  stored : Nat → Nat → Bool
  val : Nat → Nat → α

/-- Modelled from the spec: the constructor `SparseMatrix(n)` / `SparseMatrix(h, w)`
of an empty operator. -/
def SparseMatrix.empty {α : Type} [Zero α] (h w : Nat) : SparseMatrix α :=
  { height := h, width := w, stored := fun _ _ => false, val := fun _ _ => 0 }

/-- Modelled from the spec: `SparseMatrix::Add(i, j, a)` (also `_Add_`), adding `a` to
the entry `(i, j)` and recording the position in the pattern. -/
def SparseMatrix.AddEntry {α : Type} [Add α] (A : SparseMatrix α) (i j : Nat) (a : α) :
    SparseMatrix α :=
  { A with
    stored := fun r c => if r = i ∧ c = j then true else A.stored r c
    val := fun r c => if r = i ∧ c = j then A.val r c + a else A.val r c }

/-- The dof addressed by a vdof: "a non-negative value `d` is dof `d` with positive
sign; a negative value encodes `-1-d`". -/
def decodeDof (v : Int) : Nat := if v < 0 then (-1 - v).toNat else v.toNat

/-- The orientation sign carried by a vdof. -/
def decodeSign {α : Type} [One α] [Neg α] (v : Int) : α := if v < 0 then -1 else 1

/-- Modelled from the spec: `SparseMatrix::AddSubMatrix(rows, cols, subm, skip_zeros)`
is missing; "scatter-add (honoring vdof sign flips and an explicit zero-skipping
policy) into the global accumulator". -/
def SparseMatrix.AddSubMatrix {α : Type} [Add α] [Neg α] [Zero α] [DecidableEq α]
    (A : SparseMatrix α) (rows cols : List Int) (subm : DenseMatrix α)
    (skip_zeros : Int) : SparseMatrix α :=
  (List.range rows.length).foldl (fun A i =>
    let gi : Int := rows.getD i 0
    let s : Int := if gi < 0 then -1 else 1
    (List.range cols.length).foldl (fun A j =>
      let gj : Int := cols.getD j 0
      let t : Int := if gj < 0 then -s else s
      let a := subm.data i j
      if skip_zeros ≠ 0 ∧ a = 0 then A
      else A.AddEntry (decodeDof gi) (decodeDof gj) (if t < 0 then -a else a)) A) A

/-- Modelled from the spec: `SparseMatrix::EliminateRowCol(rc, sol, rhs, d)` is missing;
"zero row/column `d` in the global operator except the diagonal, adjust every other
row's right-hand-side entry by subtracting `A[row][d] * solution[d]`, and set the
right-hand-side at `d` consistently with the chosen diagonal-handling policy": with
`d = 0` the diagonal becomes one and `rhs(rc) = sol`, otherwise the diagonal is kept
and `rhs(rc) = A(rc,rc) * sol`. -/
def SparseMatrix.EliminateRowCol {α : Type} [Zero α] [One α] [Mul α] [Sub α]
    (A : SparseMatrix α) (rc : Nat) (sol : α) (rhs : Vector α) (d : Int) :
    SparseMatrix α × Vector α :=
  ({ A with val := fun r c =>
      if r = rc ∧ c = rc then (if d = 0 then 1 else A.val rc rc)
      else if r = rc ∨ c = rc then 0 else A.val r c },
   fun r => if r = rc then (if d = 0 then sol else A.val rc rc * sol)
            else rhs r - sol * A.val r rc)

/-- Modelled from the spec: `SparseMatrix::EliminateRowCol(rc, d)` is missing; the
elimination of row and column `rc` that touches no right-hand side. -/
def SparseMatrix.EliminateRowColDiag {α : Type} [Zero α] [One α]
    (A : SparseMatrix α) (rc : Nat) (d : Int) : SparseMatrix α :=
  { A with val := fun r c =>
      if r = rc ∧ c = rc then (if d = 0 then 1 else A.val rc rc)
      else if r = rc ∨ c = rc then 0 else A.val r c }

/-- Modelled from the spec: `SparseMatrix::EliminateRowCol(rc, Ae, d)` is missing; "move
its row/column contributions into the companion matrix (rather than destroying
them)": every entry of row and column `rc` that the elimination changes is added to
`Ae` by the amount removed. -/
def SparseMatrix.EliminateRowColAe {α : Type} [Zero α] [One α] [Add α] [Sub α]
    (A : SparseMatrix α) (rc : Nat) (Ae : SparseMatrix α) (d : Int) :
    SparseMatrix α × SparseMatrix α :=
  ({ A with val := fun r c =>
      if r = rc ∧ c = rc then (if d = 0 then 1 else A.val rc rc)
      else if r = rc ∨ c = rc then 0 else A.val r c },
   { Ae with
     stored := fun r c => if r = rc ∨ c = rc then (Ae.stored r c || A.stored r c)
                          else Ae.stored r c
     val := fun r c =>
      if r = rc ∧ c = rc then (if d = 0 then Ae.val rc rc + (A.val rc rc - 1)
                               else Ae.val rc rc)
      else if r = rc ∨ c = rc then Ae.val r c + A.val r c else Ae.val r c })

/-- Modelled from the spec: the product `(A x)(r)` of the missing class `SparseMatrix`
with a vector, "matrix-vector multiply". -/
def SparseMatrix.rowDot {α : Type} [Zero α] [Add α] [Mul α]
    (A : SparseMatrix α) (x : Vector α) (r : Nat) : α :=
  ((List.range A.width).map (fun c => A.val r c * x c)).sum

/-- Modelled from the spec: `SparseMatrix::AddMult(x, y, a)` is missing;
`y += a * (A x)`. -/
def SparseMatrix.AddMult {α : Type} [Zero α] [Add α] [Mul α]
    (A : SparseMatrix α) (x y : Vector α) (a : α) : Vector α :=
  fun r => if r < A.height then y r + a * A.rowDot x r else y r

/-- Modelled from the spec: `SparseMatrix::PartMult(rows, x, y)` is missing; the
"partial multiply" `y(r) = (A x)(r)` for the rows `r` listed in `rows`.  The entries of
`rows` are used as row indices as they are; a negative entry addresses no row and the
result is `none`. -/
def SparseMatrix.PartMult {α : Type} [Zero α] [Add α] [Mul α]
    (A : SparseMatrix α) (rows : List Int) (x y : Vector α) : Option (Vector α) :=
  rows.foldl (fun (acc : Option (Vector α)) (r : Int) =>
    match acc with
    | none => none
    | some y =>
      if r < 0 then none
      else some (fun k => if k = r.toNat then A.rowDot x r.toNat else y k)) (some y)

/-- Modelled from the spec: `SparseMatrix::Finalize(skip_zeros)` is missing; "finalize
storage": the entries keep their values, and with `skip_zeros` set the stored zeros
leave the pattern. -/
def SparseMatrix.Finalize {α : Type} [Zero α] [DecidableEq α]
    (A : SparseMatrix α) (skip_zeros : Int) : SparseMatrix α :=
  { A with stored := fun r c =>
      A.stored r c && (decide (skip_zeros = 0) || decide (A.val r c ≠ 0)) }

/-- Modelled from the spec: `Transpose(const SparseMatrix &)` is missing; "restriction is
the transpose of prolongation". -/
def SparseMatrix.Transpose {α : Type} (A : SparseMatrix α) : SparseMatrix α :=
  { height := A.width, width := A.height,
    stored := fun r c => A.stored c r,
    val := fun r c => A.val c r }

/-- Modelled from the spec: `Mult(const SparseMatrix &, const SparseMatrix &)` is
missing; the matrix product `A * B`, summed over the columns of `A`. -/
def SparseMatrix.Mult {α : Type} [Zero α] [Add α] [Mul α]
    (A B : SparseMatrix α) : SparseMatrix α :=
  { height := A.height, width := B.width,
    stored := fun r c => (List.range A.width).any (fun k => A.stored r k && B.stored k c),
    val := fun r c => ((List.range A.width).map (fun k => A.val r k * B.val k c)).sum }

/-- Modelled from the spec: `SparseMatrix::EliminateCols(cols, x, b)` is missing; "zero
the matrix columns for marked trial dofs, folding their contribution into the
caller's solution/rhs pair": a column `c` is marked when `cols[c]` is not zero. -/
def SparseMatrix.EliminateCols {α : Type} [Zero α] [Add α] [Mul α] [Sub α]
    (A : SparseMatrix α) (cols : List Int) (x b : Vector α) : SparseMatrix α × Vector α :=
  ({ A with val := fun r c => if cols.getD c 0 ≠ 0 then 0 else A.val r c },
   fun r => if r < A.height then
              b r - ((List.range A.width).map (fun c =>
                if cols.getD c 0 ≠ 0 then A.val r c * x c else 0)).sum
            else b r)

/-- Modelled from the spec: `SparseMatrix::EliminateRow(row)` is missing; "zero entire
rows for marked test-space boundary dofs". -/
def SparseMatrix.EliminateRow {α : Type} [Zero α] (A : SparseMatrix α) (row : Nat) :
    SparseMatrix α :=
  { A with val := fun r c => if r = row then 0 else A.val r c }

/-! ## Tables -/

/-- Modelled from the spec: the class `Table` is missing; an incidence table
("CSR-like: offsets + column indices"), row `i` lists the columns connected to `i`. -/
structure Table where
  rows : List (List Nat)

/-- Modelled from the spec: `Transpose(A, At, ncols)` on the missing class `Table`,
"transpose element→dof to get dof→element". -/
def Table.Transpose (A : Table) (ncols : Nat) : Table :=
  ⟨(List.range ncols).map (fun j =>
    (List.range A.rows.length).filter (fun i => decide (j ∈ A.rows.getD i [])))⟩

/-- Modelled from the spec: `Mult(A, B, C)` on the missing class `Table`, the "Boolean
matrix product" of two incidence tables. -/
def Table.Mult (A B : Table) : Table :=
  ⟨A.rows.map (fun r => (r.flatMap (fun k => B.rows.getD k [])).dedup)⟩

/-- Modelled from the spec: the constructor `SparseMatrix(I, J, data, h, w)` followed by
`*mat = 0.0`: a zero operator whose pattern is the given table. -/
def SparseMatrix.ofTable {α : Type} [Zero α] (T : Table) (h w : Nat) : SparseMatrix α :=
  { height := h, width := w,
    stored := fun r c => decide (c ∈ T.rows.getD r []),
    val := fun _ _ => 0 }

/-! ## External collaborators -/

/-- The queries `fem/bilinearform.cpp` makes on the mesh (class `Mesh`, external).  A
face transformation is represented by the element numbers it carries (`Elem1No`,
`Elem2No`); `none` is the `NULL` transformation.  `GetFaceElementTransformations`
always gives a transformation, whose `Elem2No` is negative on a boundary face. -/
structure Mesh where
  GetNumFaces : Nat
  GetInteriorFaceTransformations : Nat → Option (Nat × Nat)
  GetBdrFaceTransformations : Nat → Option Nat
  GetFaceElementTransformations : Nat → Nat × Int
  GetFaceToElementTable : Table

/-- The queries `fem/bilinearform.cpp` makes on the dof space (class
`FiniteElementSpace`, external).  `GetFEDof i` is `GetFE(i)->GetDof()`. -/
structure FiniteElementSpace (α : Type) where
  GetMesh : Mesh
  GetNE : Nat
  GetNBE : Nat
  GetVDim : Nat
  GetVSize : Nat
  GetFEDof : Nat → Nat
  GetElementVDofs : Nat → List Int
  GetBdrElementVDofs : Nat → List Int
  GetFaceVDofs : Nat → List Int
  GetBdrAttribute : Nat → Int
  GetElementToDofTable : Table
  GetConformingProlongation : Option (SparseMatrix α)
  GetEssentialVDofs : List Int → List Int
  ConvertToConformingVDofs : List Int → List Int

/-- An integrator (class `BilinearFormIntegrator`, external): the finite elements and
the transformation handed to `AssembleElementMatrix` / `AssembleFaceMatrix` are
determined by the index of the geometric entity, so an integrator is the map from that
index to the local matrix it produces. -/
abbrev BilinearFormIntegrator (α : Type) := Nat → DenseMatrix α

/-! ## `BilinearForm` -/

/-- The state of a `BilinearForm` (`NULL` pointers are `none`). -/
structure BilinearForm (α : Type) where
  height : Nat
  width : Nat
  fes : FiniteElementSpace α
  mat : Option (SparseMatrix α)
  mat_e : Option (SparseMatrix α)
  element_matrices : Option (DenseTensor α)
  dbfi : List (BilinearFormIntegrator α)
  bbfi : List (BilinearFormIntegrator α)
  fbfi : List (BilinearFormIntegrator α)
  bfbfi : List (BilinearFormIntegrator α)
  precompute_sparsity : Int

variable {α : Type} [CommRing α] [DecidableEq α]

set_option linter.unusedSectionVars false

/-- The constructor `BilinearForm::BilinearForm(FiniteElementSpace *f)`. -/
def BilinearForm.new (f : FiniteElementSpace α) : BilinearForm α :=
  { height := f.GetVSize, width := f.GetVSize, fes := f, mat := none, mat_e := none,
    element_matrices := none, dbfi := [], bbfi := [], fbfi := [], bfbfi := [],
    precompute_sparsity := 0 }

/-- The pattern and storage that `BilinearForm::AllocMat` gives the global operator. -/
def BilinearForm.AllocMatrix (bf : BilinearForm α) : SparseMatrix α :=
  if bf.precompute_sparsity = 0 ∨ bf.fes.GetVDim > 1 then
    SparseMatrix.empty bf.height bf.height
  else
    let elem_dof := bf.fes.GetElementToDofTable
    let dof_dof : Table :=
      if bf.fbfi.length > 0 then
        -- the sparsity pattern is defined from the map: face->element->dof
        let face_elem := bf.fes.GetMesh.GetFaceToElementTable
        let face_dof := Table.Mult face_elem elem_dof
        let dof_face := Table.Transpose face_dof bf.height
        Table.Mult dof_face face_dof
      else
        -- the sparsity pattern is defined from the map: element->dof
        let dof_elem := Table.Transpose elem_dof bf.height
        Table.Mult dof_elem elem_dof
    SparseMatrix.ofTable dof_dof bf.height bf.height

/-- `BilinearForm::AllocMat`. -/
def BilinearForm.AllocMat (bf : BilinearForm α) : BilinearForm α :=
  { bf with mat := some bf.AllocMatrix }

/-- The local matrix `dbfi[0]` produces on element `i`, with the matrices of
`dbfi[1..]` added to it (the loop shared by `ComputeElementMatrix` and
`ComputeElementMatrices`). -/
def sumElementMatrices (dbfi : List (BilinearFormIntegrator α)) (i : Nat) :
    DenseMatrix α :=
  match dbfi with
  | [] => DenseMatrix.zero 0
  | I0 :: rest => rest.foldl (fun elmat I => elmat.add (I i)) (I0 i)

/-- The message of the `mfem_error` call in `BilinearForm::ComputeElementMatrices`. -/
def uniformDofsMessage : String :=
  "BilinearForm::ComputeElementMatrices: all elements must have same number of dofs"

/-- The element loop of `BilinearForm::ComputeElementMatrices`; `debug` is the build
flag `MFEM_DEBUG`. -/
def computeElementLoop (debug : Bool) (fes : FiniteElementSpace α)
    (dbfi : List (BilinearFormIntegrator α)) (num_dofs_per_el : Nat) :
    List Nat → DenseTensor α → Except String (DenseTensor α)
  | [], T => .ok T
  | i :: rest, T =>
    if debug = true ∧ num_dofs_per_el ≠ fes.GetFEDof i * fes.GetVDim then
      .error uniformDofsMessage
    else
      computeElementLoop debug fes dbfi num_dofs_per_el rest
        (T.set i (sumElementMatrices dbfi i))

/-- `BilinearForm::ComputeElementMatrices`; `debug` is the build flag `MFEM_DEBUG`, and
`mfem_error` is the error result. -/
def BilinearForm.ComputeElementMatrices (debug : Bool) (bf : BilinearForm α) :
    Except String (BilinearForm α) :=
  if bf.element_matrices.isSome ∨ bf.dbfi.length = 0 ∨ bf.fes.GetNE = 0 then
    .ok bf
  else
    let num_elements := bf.fes.GetNE
    let num_dofs_per_el := bf.fes.GetFEDof 0 * bf.fes.GetVDim
    let T0 : DenseTensor α :=
      { SizeI := num_dofs_per_el, SizeJ := num_dofs_per_el, SizeK := num_elements,
        data := fun _ _ _ => 0 }
    match computeElementLoop debug bf.fes bf.dbfi num_dofs_per_el
        (List.range num_elements) T0 with
    | .error e => .error e
    | .ok T => .ok { bf with element_matrices := some T }

/-- The domain-integrator loop of `BilinearForm::Assemble`. -/
def assembleDomain (fes : FiniteElementSpace α) (dbfi : List (BilinearFormIntegrator α))
    (element_matrices : Option (DenseTensor α)) (skip_zeros : Int)
    (mat : SparseMatrix α) : SparseMatrix α :=
  if dbfi.length ≠ 0 then
    (List.range fes.GetNE).foldl (fun mat i =>
      let vdofs := fes.GetElementVDofs i
      match element_matrices with
      | some T => mat.AddSubMatrix vdofs vdofs (T.get i) skip_zeros
      | none =>
        dbfi.foldl (fun mat I => mat.AddSubMatrix vdofs vdofs (I i) skip_zeros) mat) mat
  else mat

/-- The boundary-integrator loop of `BilinearForm::Assemble`. -/
def assembleBoundary (fes : FiniteElementSpace α) (bbfi : List (BilinearFormIntegrator α))
    (skip_zeros : Int) (mat : SparseMatrix α) : SparseMatrix α :=
  if bbfi.length ≠ 0 then
    (List.range fes.GetNBE).foldl (fun mat i =>
      let vdofs := fes.GetBdrElementVDofs i
      bbfi.foldl (fun mat I => mat.AddSubMatrix vdofs vdofs (I i) skip_zeros) mat) mat
  else mat

/-- The interior-face-integrator loop of `BilinearForm::Assemble`. -/
def assembleInteriorFaces (fes : FiniteElementSpace α)
    (fbfi : List (BilinearFormIntegrator α)) (skip_zeros : Int) (mat : SparseMatrix α) :
    SparseMatrix α :=
  if fbfi.length ≠ 0 then
    (List.range fes.GetMesh.GetNumFaces).foldl (fun mat i =>
      match fes.GetMesh.GetInteriorFaceTransformations i with
      | some (Elem1No, Elem2No) =>
        let vdofs := fes.GetElementVDofs Elem1No ++ fes.GetElementVDofs Elem2No
        fbfi.foldl (fun mat I => mat.AddSubMatrix vdofs vdofs (I i) skip_zeros) mat
      | none => mat) mat
  else mat

/-- The boundary-face-integrator loop of `BilinearForm::Assemble`. -/
def assembleBdrFaces (fes : FiniteElementSpace α)
    (bfbfi : List (BilinearFormIntegrator α)) (skip_zeros : Int) (mat : SparseMatrix α) :
    SparseMatrix α :=
  if bfbfi.length ≠ 0 then
    (List.range fes.GetNBE).foldl (fun mat i =>
      match fes.GetMesh.GetBdrFaceTransformations i with
      | some Elem1No =>
        let vdofs := fes.GetElementVDofs Elem1No
        bfbfi.foldl (fun mat I => mat.AddSubMatrix vdofs vdofs (I i) skip_zeros) mat
      | none => mat) mat
  else mat

/-- The operator the body of `BilinearForm::Assemble` leaves in `mat`: the operator the
form holds, or the one `AllocMat` allocates when there is none, after the four
integrator loops, run with the cache the form holds. -/
def BilinearForm.assembledMat (bf : BilinearForm α) (skip_zeros : Int) : SparseMatrix α :=
  let mat := match bf.mat with
    | none => bf.AllocMatrix
    | some m => m
  let mat := assembleDomain bf.fes bf.dbfi bf.element_matrices skip_zeros mat
  let mat := assembleBoundary bf.fes bf.bbfi skip_zeros mat
  let mat := assembleInteriorFaces bf.fes bf.fbfi skip_zeros mat
  assembleBdrFaces bf.fes bf.bfbfi skip_zeros mat

/-- Modelled from the spec: `BilinearForm::FreeElementMatrices` is declared in the
missing header; the cache is "freed immediately after one assembly pass". -/
def BilinearForm.FreeElementMatrices (bf : BilinearForm α) : BilinearForm α :=
  { bf with element_matrices := none }

/-- `BilinearForm::Assemble`; `openmp` is the build flag `MFEM_USE_OPENMP` and `debug`
the build flag `MFEM_DEBUG`.  With `MFEM_USE_OPENMP` a form without cache computes
one before the loops and frees it after them, and the fatal error of
`ComputeElementMatrices` ends the call. -/
def BilinearForm.Assemble (openmp debug : Bool) (bf : BilinearForm α) (skip_zeros : Int) :
    Except String (BilinearForm α) :=
  let bf := match bf.mat with
    | none => bf.AllocMat
    | some _ => bf
  if openmp = true ∧ bf.element_matrices.isNone = true then
    match bf.ComputeElementMatrices debug with
    | .error e => .error e
    | .ok bf =>
      .ok (BilinearForm.FreeElementMatrices
        { bf with mat := some (bf.assembledMat skip_zeros) })
  else
    .ok { bf with mat := some (bf.assembledMat skip_zeros) }

/-- The constructor `BilinearForm::BilinearForm(FiniteElementSpace *f, BilinearForm *bf,
int ps)`, which borrows the integrators of `bf` and allocates the operator. -/
def BilinearForm.newFrom (f : FiniteElementSpace α) (bf : BilinearForm α) (ps : Int) :
    BilinearForm α :=
  BilinearForm.AllocMat
    { height := f.GetVSize, width := f.GetVSize, fes := f, mat := none, mat_e := none,
      element_matrices := none, precompute_sparsity := ps,
      dbfi := bf.dbfi, bbfi := bf.bbfi, fbfi := bf.fbfi, bfbfi := bf.bfbfi }


/-! ## Scatter sums -/

/-- The contribution of a local matrix `m`, scattered at the row vdofs `rows` and the
column vdofs `cols`, to the global entry `(r, c)`: the sum over the local pairs
`(a, b)` whose vdofs decode to `r` and `c` of `sign(a) * sign(b) * m a b`. -/
def scatterEntry (rows cols : List Int) (m : Nat → Nat → α) (r c : Nat) : α :=
  ((List.range rows.length).map (fun a =>
    ((List.range cols.length).map (fun b =>
      if decodeDof (rows.getD a 0) = r ∧ decodeDof (cols.getD b 0) = c then
        decodeSign (rows.getD a 0) * decodeSign (cols.getD b 0) * m a b
      else 0)).sum)).sum

/-- The entry `K_e[a][b]` of the sum of the local matrices of the integrators `bfi` on
the entity `e`. -/
def localSum (bfi : List (BilinearFormIntegrator α)) (e a b : Nat) : α :=
  (bfi.map (fun I => (I e).data a b)).sum

/-- The global entry `(r, c)` the specification gives for the domain integrators: the
sum over the elements `e < GetNE` of the scattered sum of local matrices. -/
def domainEntry (fes : FiniteElementSpace α) (dbfi : List (BilinearFormIntegrator α))
    (r c : Nat) : α :=
  ((List.range fes.GetNE).map (fun e =>
    scatterEntry (fes.GetElementVDofs e) (fes.GetElementVDofs e) (localSum dbfi e) r c)).sum

/-- `BilinearForm::AddDomainIntegrator`. -/
def BilinearForm.AddDomainIntegrator (bf : BilinearForm α) (bfi : BilinearFormIntegrator α) :
    BilinearForm α :=
  { bf with dbfi := bf.dbfi ++ [bfi] }

/-- `BilinearForm::AddBoundaryIntegrator`. -/
def BilinearForm.AddBoundaryIntegrator (bf : BilinearForm α)
    (bfi : BilinearFormIntegrator α) : BilinearForm α :=
  { bf with bbfi := bf.bbfi ++ [bfi] }

/-- `BilinearForm::AddInteriorFaceIntegrator`. -/
def BilinearForm.AddInteriorFaceIntegrator (bf : BilinearForm α)
    (bfi : BilinearFormIntegrator α) : BilinearForm α :=
  { bf with fbfi := bf.fbfi ++ [bfi] }

/-- `BilinearForm::EliminateVDofs(Array<int> &vdofs, Vector &sol, Vector &rhs, int d)`;
`none` when there is no operator. -/
def BilinearForm.EliminateVDofs (bf : BilinearForm α) (vdofs : List Int)
    (sol rhs : Vector α) (d : Int) : Option (BilinearForm α × Vector α) :=
  match bf.mat with
  | none => none
  | some mat =>
    let res := vdofs.foldl (fun (st : SparseMatrix α × Vector α) vdof =>
      if vdof ≥ 0 then
        st.1.EliminateRowCol vdof.toNat (sol vdof.toNat) st.2 d
      else
        st.1.EliminateRowCol (-1 - vdof).toNat (sol (-1 - vdof).toNat) st.2 d) (mat, rhs)
    some ({ bf with mat := some res.1 }, res.2)

/-- `BilinearForm::EliminateVDofs(Array<int> &vdofs, int d)`, the overload that records
the eliminated entries in `mat_e`; `none` when there is no operator. -/
def BilinearForm.EliminateVDofsAe (bf : BilinearForm α) (vdofs : List Int) (d : Int) :
    Option (BilinearForm α) :=
  match bf.mat with
  | none => none
  | some mat =>
    let mat_e := match bf.mat_e with
      | none => SparseMatrix.empty bf.height bf.height
      | some e => e
    let res := vdofs.foldl (fun (st : SparseMatrix α × SparseMatrix α) vdof =>
      if vdof ≥ 0 then
        st.1.EliminateRowColAe vdof.toNat st.2 d
      else
        st.1.EliminateRowColAe (-1 - vdof).toNat st.2 d) (mat, mat_e)
    some { bf with mat := some res.1, mat_e := some res.2 }

/-- `BilinearForm::EliminateVDofsInRHS(vdofs, x, b)`; `none` when the operator or the
companion is missing or when `PartMult` fails. -/
def BilinearForm.EliminateVDofsInRHS (bf : BilinearForm α) (vdofs : List Int)
    (x b : Vector α) : Option (Vector α) :=
  match bf.mat_e, bf.mat with
  | some mat_e, some mat => mat.PartMult vdofs x (mat_e.AddMult x b (-1))
  | _, _ => none

/-- `BilinearForm::EliminateEssentialBCFromDofs(Array<int> &ess_dofs, Vector &sol,
Vector &rhs, int d)`; the `MFEM_ASSERT` size checks are preconditions of the theorems;
`none` when there is no operator. -/
def BilinearForm.EliminateEssentialBCFromDofs (bf : BilinearForm α) (ess_dofs : List Int)
    (sol rhs : Vector α) (d : Int) : Option (BilinearForm α × Vector α) :=
  match bf.mat with
  | none => none
  | some mat =>
    let res := (List.range ess_dofs.length).foldl
      (fun (st : SparseMatrix α × Vector α) i =>
        if ess_dofs.getD i 0 < 0 then st.1.EliminateRowCol i (sol i) st.2 d else st)
      (mat, rhs)
    some ({ bf with mat := some res.1 }, res.2)

/-- `BilinearForm::EliminateEssentialBCFromDofs(Array<int> &ess_dofs, int d)`; `none`
when there is no operator. -/
def BilinearForm.EliminateEssentialBCFromDofsDiag (bf : BilinearForm α)
    (ess_dofs : List Int) (d : Int) : Option (BilinearForm α) :=
  match bf.mat with
  | none => none
  | some mat =>
    let res := (List.range ess_dofs.length).foldl
      (fun (st : SparseMatrix α) i =>
        if ess_dofs.getD i 0 < 0 then st.EliminateRowColDiag i d else st) mat
    some { bf with mat := some res }

/-- `BilinearForm::EliminateEssentialBC(Array<int> &bdr_attr_is_ess, Vector &sol,
Vector &rhs, int d)`. -/
def BilinearForm.EliminateEssentialBC (bf : BilinearForm α) (bdr_attr_is_ess : List Int)
    (sol rhs : Vector α) (d : Int) : Option (BilinearForm α × Vector α) :=
  let ess_dofs := bf.fes.GetEssentialVDofs bdr_attr_is_ess
  if bf.fes.GetConformingProlongation.isNone then
    bf.EliminateEssentialBCFromDofs ess_dofs sol rhs d
  else
    let conf_ess_dofs := bf.fes.ConvertToConformingVDofs ess_dofs
    bf.EliminateEssentialBCFromDofs conf_ess_dofs sol rhs d

/-- `BilinearForm::EliminateEssentialBC(Array<int> &bdr_attr_is_ess, int d)`. -/
def BilinearForm.EliminateEssentialBCDiag (bf : BilinearForm α)
    (bdr_attr_is_ess : List Int) (d : Int) : Option (BilinearForm α) :=
  let ess_dofs := bf.fes.GetEssentialVDofs bdr_attr_is_ess
  if bf.fes.GetConformingProlongation.isNone then
    bf.EliminateEssentialBCFromDofsDiag ess_dofs d
  else
    let conf_ess_dofs := bf.fes.ConvertToConformingVDofs ess_dofs
    bf.EliminateEssentialBCFromDofsDiag conf_ess_dofs d

/-- The right-hand-side correction of a row `r`: the sum over the dofs `i < n` selected
by `ess` of `A[r][i] * sol[i]`. -/
def essentialSum (A : SparseMatrix α) (sol : Vector α) (ess : Nat → Bool) (n r : Nat) : α :=
  ((List.range n).map (fun i => if ess i = true then A.val r i * sol i else 0)).sum

/-- The successive calls `mat->EliminateRowCol(i, sol(i), rhs, d)` for the dofs `i` of
a list, the loop body shared by the direct-mode eliminations. -/
def eliminateDofs (sol : Vector α) (d : Int) (L : List Nat)
    (st : SparseMatrix α × Vector α) : SparseMatrix α × Vector α :=
  L.foldl (fun st i => st.1.EliminateRowCol i (sol i) st.2 d) st

/-- The successive calls `mat->EliminateRowCol(dof, *mat_e, d)` for the decoded vdofs
of a list, the loop of the recording overload of `EliminateVDofs`. -/
def recordVDofs (d : Int) (vdofs : List Int)
    (st : SparseMatrix α × SparseMatrix α) : SparseMatrix α × SparseMatrix α :=
  vdofs.foldl (fun (st : SparseMatrix α × SparseMatrix α) vdof =>
    if vdof ≥ 0 then
      st.1.EliminateRowColAe vdof.toNat st.2 d
    else
      st.1.EliminateRowColAe (-1 - vdof).toNat st.2 d) st

/-- The operator left by eliminating the dofs selected by `ess`: rows and columns of
the selected dofs are zero off the diagonal, their diagonal follows the policy `d`. -/
def eliminatedMat (A : SparseMatrix α) (d : Int) (ess : Nat → Bool) : SparseMatrix α :=
  { A with val := fun r c =>
      if ess r = true ∨ ess c = true then
        (if r = c then (if d = 0 then 1 else A.val r r) else 0)
      else A.val r c }

/-- The right-hand side left by direct-mode elimination of the dofs selected by `ess`
among the first `n`. -/
def eliminatedRhs (A : SparseMatrix α) (sol rhs : Vector α) (d : Int) (ess : Nat → Bool)
    (n : Nat) : Vector α :=
  fun r => if ess r = true then (if d = 0 then sol r else A.val r r * sol r)
           else rhs r - essentialSum A sol ess n r

/-! ## Conforming projection -/

/-- `BilinearForm::Finalize(skip_zeros)`; `none` when there is no operator. -/
def BilinearForm.Finalize (bf : BilinearForm α) (skip_zeros : Int) :
    Option (BilinearForm α) :=
  match bf.mat with
  | none => none
  | some mat =>
    some { bf with
      mat := some (mat.Finalize skip_zeros)
      mat_e := match bf.mat_e with
        | some mat_e => some (mat_e.Finalize skip_zeros)
        | none => none }

/-- `BilinearForm::ConformingAssemble`; `none` when there is no operator. -/
def BilinearForm.ConformingAssemble (bf : BilinearForm α) : Option (BilinearForm α) :=
  match bf.Finalize 0 with
  | none => none
  | some bf =>
    match bf.fes.GetConformingProlongation, bf.mat with
    | none, _ => some bf -- assume conforming mesh
    | some _, none => none
    | some P, some mat =>
      let R := P.Transpose
      let RA := R.Mult mat
      let mat_e1 := match bf.mat_e with
        | some mat_e => some (R.Mult mat_e)
        | none => none
      let mat := RA.Mult P
      let mat_e2 := match mat_e1 with
        | some mat_e => some (mat_e.Mult P)
        | none => none
      some { bf with mat := some mat, mat_e := mat_e2,
                     height := mat.height, width := mat.width }

/-- The entry `(i, j)` of `Pᵀ A P`: the sum over the rows `k` of `P` and the columns
`l` of `A` of `P[k][i] * A[k][l] * P[l][j]`. -/
def galerkinEntry (P A : SparseMatrix α) (i j : Nat) : α :=
  ((List.range A.width).map (fun l =>
    ((List.range P.height).map (fun k => P.val k i * A.val k l * P.val l j)).sum)).sum

/-! ## `MixedBilinearForm` -/

/-- The state of a `MixedBilinearForm` (`NULL` pointers are `none`). -/
structure MixedBilinearForm (α : Type) where
  height : Nat
  width : Nat
  trial_fes : FiniteElementSpace α
  test_fes : FiniteElementSpace α
  mat : Option (SparseMatrix α)
  dom : List (BilinearFormIntegrator α)
  bdr : List (BilinearFormIntegrator α)
  skt : List (BilinearFormIntegrator α)

/-- The constructor `MixedBilinearForm::MixedBilinearForm(tr_fes, te_fes)`. -/
def MixedBilinearForm.new (tr_fes te_fes : FiniteElementSpace α) : MixedBilinearForm α :=
  { height := te_fes.GetVSize, width := tr_fes.GetVSize, trial_fes := tr_fes,
    test_fes := te_fes, mat := none, dom := [], bdr := [], skt := [] }

/-- `MixedBilinearForm::AddDomainIntegrator`. -/
def MixedBilinearForm.AddDomainIntegrator (mbf : MixedBilinearForm α)
    (bfi : BilinearFormIntegrator α) : MixedBilinearForm α :=
  { mbf with dom := mbf.dom ++ [bfi] }

/-- `MixedBilinearForm::AddBoundaryIntegrator`. -/
def MixedBilinearForm.AddBoundaryIntegrator (mbf : MixedBilinearForm α)
    (bfi : BilinearFormIntegrator α) : MixedBilinearForm α :=
  { mbf with bdr := mbf.bdr ++ [bfi] }

/-- `MixedBilinearForm::AddTraceFaceIntegrator`. -/
def MixedBilinearForm.AddTraceFaceIntegrator (mbf : MixedBilinearForm α)
    (bfi : BilinearFormIntegrator α) : MixedBilinearForm α :=
  { mbf with skt := mbf.skt ++ [bfi] }

/-- The domain-integrator loop of `MixedBilinearForm::Assemble`. -/
def mixedAssembleDomain (trial_fes test_fes : FiniteElementSpace α)
    (dom : List (BilinearFormIntegrator α)) (skip_zeros : Int) (mat : SparseMatrix α) :
    SparseMatrix α :=
  if dom.length ≠ 0 then
    (List.range test_fes.GetNE).foldl (fun mat i =>
      let tr_vdofs := trial_fes.GetElementVDofs i
      let te_vdofs := test_fes.GetElementVDofs i
      dom.foldl (fun mat I => mat.AddSubMatrix te_vdofs tr_vdofs (I i) skip_zeros) mat) mat
  else mat

/-- The boundary-integrator loop of `MixedBilinearForm::Assemble`. -/
def mixedAssembleBoundary (trial_fes test_fes : FiniteElementSpace α)
    (bdr : List (BilinearFormIntegrator α)) (skip_zeros : Int) (mat : SparseMatrix α) :
    SparseMatrix α :=
  if bdr.length ≠ 0 then
    (List.range test_fes.GetNBE).foldl (fun mat i =>
      let tr_vdofs := trial_fes.GetBdrElementVDofs i
      let te_vdofs := test_fes.GetBdrElementVDofs i
      bdr.foldl (fun mat I => mat.AddSubMatrix te_vdofs tr_vdofs (I i) skip_zeros) mat) mat
  else mat

/-- The trace-face-integrator loop of `MixedBilinearForm::Assemble`. -/
def mixedAssembleTrace (trial_fes test_fes : FiniteElementSpace α)
    (skt : List (BilinearFormIntegrator α)) (skip_zeros : Int) (mat : SparseMatrix α) :
    SparseMatrix α :=
  if skt.length ≠ 0 then
    (List.range test_fes.GetMesh.GetNumFaces).foldl (fun mat i =>
      let ftr := test_fes.GetMesh.GetFaceElementTransformations i
      let tr_vdofs := trial_fes.GetFaceVDofs i
      let te_vdofs := test_fes.GetElementVDofs ftr.1
      let te_vdofs :=
        if ftr.2 ≥ 0 then te_vdofs ++ test_fes.GetElementVDofs ftr.2.toNat else te_vdofs
      skt.foldl (fun mat I => mat.AddSubMatrix te_vdofs tr_vdofs (I i) skip_zeros) mat) mat
  else mat

/-- The operator `MixedBilinearForm::Assemble` leaves in `mat`. -/
def MixedBilinearForm.assembledMat (mbf : MixedBilinearForm α) (skip_zeros : Int) :
    SparseMatrix α :=
  let mat := match mbf.mat with
    | none => SparseMatrix.empty mbf.height mbf.width
    | some m => m
  let mat := mixedAssembleDomain mbf.trial_fes mbf.test_fes mbf.dom skip_zeros mat
  let mat := mixedAssembleBoundary mbf.trial_fes mbf.test_fes mbf.bdr skip_zeros mat
  mixedAssembleTrace mbf.trial_fes mbf.test_fes mbf.skt skip_zeros mat

/-- `MixedBilinearForm::Assemble`. -/
def MixedBilinearForm.Assemble (mbf : MixedBilinearForm α) (skip_zeros : Int) :
    MixedBilinearForm α :=
  { mbf with mat := some (mbf.assembledMat skip_zeros) }

/-- The entry `(r, c)` the specification gives for a rectangular operator assembled
from domain integrators: the sum over the elements `e`, the integrators `k` and the
local pairs `(a, b)` whose test vdof `a` decodes to `r` and whose trial vdof `b`
decodes to `c` of the sign-adjusted local entry `M_{e,k}[a][b]`. -/
def mixedDomainEntry (trial_fes test_fes : FiniteElementSpace α)
    (dom : List (BilinearFormIntegrator α)) (r c : Nat) : α :=
  ((List.range test_fes.GetNE).map (fun e =>
    (dom.map (fun I =>
      scatterEntry (test_fes.GetElementVDofs e) (trial_fes.GetElementVDofs e)
        (I e).data r c)).sum)).sum

/-- `MixedBilinearForm::EliminateTrialDofs(bdr_attr_is_ess, sol, rhs)`; boundary
attributes count from one; `none` when there is no operator. -/
def MixedBilinearForm.EliminateTrialDofs (mbf : MixedBilinearForm α)
    (bdr_attr_is_ess : List Int) (sol rhs : Vector α) :
    Option (MixedBilinearForm α × Vector α) :=
  match mbf.mat with
  | none => none
  | some mat =>
    let cols_marker : List Int :=
      (List.range mbf.trial_fes.GetNBE).foldl (fun (cols_marker : List Int) i =>
        if bdr_attr_is_ess.getD (mbf.trial_fes.GetBdrAttribute i - 1).toNat 0 ≠ 0 then
          (mbf.trial_fes.GetBdrElementVDofs i).foldl
            (fun (cols_marker : List Int) (v : Int) =>
              let k : Int := if v < 0 then -1 - v else v
              cols_marker.set k.toNat 1) cols_marker
        else cols_marker) (List.replicate mbf.trial_fes.GetVSize 0)
    let res := mat.EliminateCols cols_marker sol rhs
    some ({ mbf with mat := some res.1 }, res.2)

/-- `MixedBilinearForm::EliminateEssentialBCFromTrialDofs(marked_vdofs, sol, rhs)`;
`none` when there is no operator. -/
def MixedBilinearForm.EliminateEssentialBCFromTrialDofs (mbf : MixedBilinearForm α)
    (marked_vdofs : List Int) (sol rhs : Vector α) :
    Option (MixedBilinearForm α × Vector α) :=
  match mbf.mat with
  | none => none
  | some mat =>
    let res := mat.EliminateCols marked_vdofs sol rhs
    some ({ mbf with mat := some res.1 }, res.2)

/-- `MixedBilinearForm::EliminateTestDofs(bdr_attr_is_ess)`; boundary attributes count
from one; `none` when there is no operator. -/
def MixedBilinearForm.EliminateTestDofs (mbf : MixedBilinearForm α)
    (bdr_attr_is_ess : List Int) : Option (MixedBilinearForm α) :=
  match mbf.mat with
  | none => none
  | some mat =>
    let res := (List.range mbf.test_fes.GetNBE).foldl (fun (mat : SparseMatrix α) i =>
      if bdr_attr_is_ess.getD (mbf.test_fes.GetBdrAttribute i - 1).toNat 0 ≠ 0 then
        (mbf.test_fes.GetBdrElementVDofs i).foldl
          (fun (mat : SparseMatrix α) (v : Int) =>
            let k : Int := if v < 0 then -1 - v else v
            mat.EliminateRow k.toNat) mat
      else mat) mat
    some { mbf with mat := some res }

/-! ## Vdof lists with the negative entries replaced -/

/-- A vdof with a negative value `v` replaced by the non-negative index `-1 - v`. -/
def normalizeVDof (v : Int) : Int := if v < 0 then -1 - v else v

/-- A dof space whose boundary-element vdof lists have every negative entry `v`
replaced by `-1 - v`. -/
def FiniteElementSpace.normalizeBdr (fes : FiniteElementSpace α) : FiniteElementSpace α :=
  { fes with GetBdrElementVDofs := fun i => (fes.GetBdrElementVDofs i).map normalizeVDof }

/-- A mixed form whose trial space has its boundary vdof lists normalized. -/
def MixedBilinearForm.normalizeTrialBdr (mbf : MixedBilinearForm α) : MixedBilinearForm α :=
  { mbf with trial_fes := mbf.trial_fes.normalizeBdr }

/-- A mixed form whose test space has its boundary vdof lists normalized. -/
def MixedBilinearForm.normalizeTestBdr (mbf : MixedBilinearForm α) : MixedBilinearForm α :=
  { mbf with test_fes := mbf.test_fes.normalizeBdr }

/-! ## Consistency of the collaborators -/

/-- What assembly takes for granted of a mesh and a dof space of `height` dofs: the
element-to-dof table lists the dofs of every element, all below `height`; the dofs of
a boundary element are dofs of some element; the two elements of an interior face are
elements listed for that face in the face-to-element table; the element of a boundary
face is an element; every element lies on some face of the face-to-element table. -/
structure FiniteElementSpace.Consistent (fes : FiniteElementSpace α) (height : Nat) :
    Prop where
  elem_dofs : ∀ e, e < fes.GetNE → ∀ v ∈ fes.GetElementVDofs e,
    decodeDof v ∈ fes.GetElementToDofTable.rows.getD e [] ∧ decodeDof v < height
  bdr_dofs : ∀ i, i < fes.GetNBE → ∃ e, e < fes.GetNE ∧
    ∀ v ∈ fes.GetBdrElementVDofs i, decodeDof v ∈ (fes.GetElementVDofs e).map decodeDof
  interior_faces : ∀ i, i < fes.GetMesh.GetNumFaces → ∀ e1 e2,
    fes.GetMesh.GetInteriorFaceTransformations i = some (e1, e2) →
    e1 < fes.GetNE ∧ e2 < fes.GetNE ∧
    e1 ∈ fes.GetMesh.GetFaceToElementTable.rows.getD i [] ∧
    e2 ∈ fes.GetMesh.GetFaceToElementTable.rows.getD i []
  bdr_faces : ∀ i, i < fes.GetNBE → ∀ e1,
    fes.GetMesh.GetBdrFaceTransformations i = some e1 → e1 < fes.GetNE
  elem_faces : ∀ e, e < fes.GetNE →
    ∃ f, e ∈ fes.GetMesh.GetFaceToElementTable.rows.getD f []

/-! ## Concrete inputs -/

/-- A mesh without faces. -/
def noFaceMesh : Mesh :=
  { GetNumFaces := 0,
    GetInteriorFaceTransformations := fun _ => none,
    GetBdrFaceTransformations := fun _ => none,
    GetFaceElementTransformations := fun _ => (0, -1),
    GetFaceToElementTable := ⟨[]⟩ }

/-- Two adjacent line elements with vdofs `[0, 1]` and `[1, 2]`, two dofs per element,
three dofs in all; the end dofs 0 and 2 are essential when boundary attribute 1 is
flagged. -/
def twoLineSpace : FiniteElementSpace Int :=
  { GetMesh := noFaceMesh, GetNE := 2, GetNBE := 0, GetVDim := 1, GetVSize := 3,
    GetFEDof := fun _ => 2,
    GetElementVDofs := fun e => if e = 0 then [0, 1] else if e = 1 then [1, 2] else [],
    GetBdrElementVDofs := fun _ => [],
    GetFaceVDofs := fun _ => [],
    GetBdrAttribute := fun _ => 1,
    GetElementToDofTable := ⟨[[0, 1], [1, 2]]⟩,
    GetConformingProlongation := none,
    GetEssentialVDofs := fun bdr => if bdr.getD 0 0 ≠ 0 then [-1, 0, -1] else [0, 0, 0],
    ConvertToConformingVDofs := fun l => l }

/-- The local matrix `[[2, -3], [-5, 7]]`, the same on every element. -/
def stiffness2 : BilinearFormIntegrator Int :=
  fun _ => { height := 2, width := 2,
             data := fun a b => if a = 0 then (if b = 0 then 2 else if b = 1 then -3 else 0)
                                else if a = 1 then (if b = 0 then -5 else if b = 1 then 7 else 0)
                                else 0 }

/-- The form on `twoLineSpace` with the single domain integrator `stiffness2`. -/
def twoLineForm : BilinearForm Int :=
  { BilinearForm.new twoLineSpace with dbfi := [stiffness2] }

/-- A 3x3 operator with entries `A[r][c] = 10 * (r + 1) + (c + 1)`, every position
stored. -/
def mat3 : SparseMatrix Int :=
  { height := 3, width := 3,
    stored := fun r c => decide (r < 3 ∧ c < 3),
    val := fun r c => if r < 3 ∧ c < 3 then 10 * (r + 1 : Int) + (c + 1 : Int) else 0 }

/-- A form on a three-dof space whose operator is `mat3`. -/
def form3 : BilinearForm Int :=
  { BilinearForm.new twoLineSpace with mat := some mat3 }

/-- The solution vector with `sol[1] = 5`. -/
def sol3 : Vector Int := fun i => if i = 1 then 5 else 0

/-- The right-hand side `(100, 200, 300)`. -/
def rhs3 : Vector Int := fun i => if i < 3 then 100 * (i + 1 : Int) else 0

/-- The 2x2 prolongation `[[1, 1], [0, 1]]`. -/
def shearP : SparseMatrix Int :=
  { height := 2, width := 2,
    stored := fun r c => decide (r < 2 ∧ c < 2),
    val := fun r c => if r = 0 ∧ c = 0 then 1 else if r = 0 ∧ c = 1 then 1
                      else if r = 1 ∧ c = 1 then 1 else 0 }

/-- The 2x2 identity operator. -/
def eye2 : SparseMatrix Int :=
  { height := 2, width := 2,
    stored := fun r c => decide (r < 2 ∧ c < 2),
    val := fun r c => if r = c ∧ r < 2 then 1 else 0 }

/-- A two-dof space whose conforming prolongation is `shearP`. -/
def shearSpace : FiniteElementSpace Int :=
  { twoLineSpace with GetVSize := 2, GetConformingProlongation := some shearP }

/-- A form on `shearSpace` whose operator is the identity and whose companion is
`shearP`. -/
def shearForm : BilinearForm Int :=
  { BilinearForm.new shearSpace with mat := some eye2, mat_e := some shearP }

/-- A two-dof space whose conforming prolongation is the identity. -/
def identitySpace : FiniteElementSpace Int :=
  { twoLineSpace with GetVSize := 2, GetConformingProlongation := some eye2 }

/-- A form on `identitySpace` whose operator is `shearP`, without companion. -/
def identityForm : BilinearForm Int :=
  { BilinearForm.new identitySpace with mat := some shearP }

/-- Two elements with different dof counts: element 0 has the vdofs `[0, 1]`, element 1
the vdofs `[1, 2, 3]`. -/
def mixedSpace : FiniteElementSpace Int :=
  { twoLineSpace with
    GetVSize := 4,
    GetFEDof := fun e => if e = 0 then 2 else 3,
    GetElementVDofs := fun e => if e = 0 then [0, 1] else if e = 1 then [1, 2, 3] else [],
    GetElementToDofTable := ⟨[[0, 1], [1, 2, 3]]⟩ }

/-- The identity local matrix of the size of the element. -/
def unitIntegrator : BilinearFormIntegrator Int :=
  fun e => { height := if e = 0 then 2 else 3, width := if e = 0 then 2 else 3,
             data := fun a b => if a = b then 1 else 0 }

/-- The form on `mixedSpace` with the single domain integrator `unitIntegrator`. -/
def mixedForm : BilinearForm Int :=
  { BilinearForm.new mixedSpace with dbfi := [unitIntegrator] }

/-- The mesh of two line elements with its three faces (the vertices): face 1 is
interior between the elements 0 and 1, the faces 0 and 2 bound the elements 0 and 1. -/
def lineMesh : Mesh :=
  { GetNumFaces := 3,
    GetInteriorFaceTransformations := fun i => if i = 1 then some (0, 1) else none,
    GetBdrFaceTransformations := fun i => if i = 0 then some 0 else if i = 1 then some 1
                                          else none,
    GetFaceElementTransformations := fun i => if i = 0 then (0, -1)
                                             else if i = 1 then (0, 1) else (1, -1),
    GetFaceToElementTable := ⟨[[0], [0, 1], [1]]⟩ }

/-- The space `twoLineSpace` on `lineMesh`, with the two boundary points as boundary
elements of vdofs `[0]` and `[2]`. -/
def lineSpace : FiniteElementSpace Int :=
  { twoLineSpace with
    GetMesh := lineMesh, GetNBE := 2,
    GetBdrElementVDofs := fun i => if i = 0 then [0] else if i = 1 then [2] else [] }

/-- A local matrix with every entry one, of any size. -/
def onesIntegrator : BilinearFormIntegrator Int :=
  fun _ => { height := 4, width := 4, data := fun _ _ => 1 }

/-- A form on `lineSpace` with sparsity prediction enabled and one integrator of every
kind. -/
def patternForm : BilinearForm Int :=
  { BilinearForm.new lineSpace with
    precompute_sparsity := 1, dbfi := [stiffness2], bbfi := [onesIntegrator],
    fbfi := [onesIntegrator], bfbfi := [onesIntegrator] }

/-- A one-element test space with the vdofs `[0, 1, 2]`. -/
def testSpace3 : FiniteElementSpace Int :=
  { twoLineSpace with
    GetNE := 1, GetVSize := 3, GetFEDof := fun _ => 3,
    GetElementVDofs := fun e => if e = 0 then [0, 1, 2] else [],
    GetElementToDofTable := ⟨[[0, 1, 2]]⟩ }

/-- A one-element trial space with the vdofs `[0, 1]`. -/
def trialSpace2 : FiniteElementSpace Int :=
  { twoLineSpace with
    GetNE := 1, GetVSize := 2, GetFEDof := fun _ => 2,
    GetElementVDofs := fun e => if e = 0 then [0, 1] else [],
    GetElementToDofTable := ⟨[[0, 1]]⟩ }

/-- The 3x2 local matrix `[[1, 2], [3, 4], [5, 6]]`. -/
def local32 : BilinearFormIntegrator Int :=
  fun _ => { height := 3, width := 2,
             data := fun a b => if a < 3 ∧ b < 2 then 2 * (a : Int) + (b : Int) + 1 else 0 }

/-- The mixed form on `trialSpace2` and `testSpace3` with the single domain integrator
`local32`. -/
def mixedForm32 : MixedBilinearForm Int :=
  (MixedBilinearForm.new trialSpace2 testSpace3).AddDomainIntegrator local32

/-- A form built by the second constructor on `lineSpace` with sparsity prediction
enabled, borrowing the single domain integrator of `twoLineForm`, to which an
interior-face integrator is added after the operator was allocated. -/
def lateForm : BilinearForm Int :=
  (BilinearForm.newFrom lineSpace twoLineForm 1).AddInteriorFaceIntegrator onesIntegrator

/-- A form built by the second constructor on `lineSpace` with sparsity prediction
enabled, borrowing the integrators of `patternForm`, to which a boundary integrator
is added after the operator was allocated. -/
def borrowedForm : BilinearForm Int :=
  (BilinearForm.newFrom lineSpace patternForm 1).AddBoundaryIntegrator onesIntegrator

/-! ## Lemmas on scattering -/

theorem foldl_val_eq {β : Type} (f : SparseMatrix α → β → SparseMatrix α) (g : β → α)
    (r c : Nat) (h : ∀ M x, (f M x).val r c = M.val r c + g x) (l : List β)
    (A : SparseMatrix α) :
    (l.foldl f A).val r c = A.val r c + (l.map g).sum := by
  induction l generalizing A with
  | nil => simp
  | cons x xs ih => simp [List.foldl_cons, ih, h, add_assoc]

theorem AddSubMatrix_val (A : SparseMatrix α) (rows cols : List Int)
    (subm : DenseMatrix α) (skip_zeros : Int) (r c : Nat) :
    (A.AddSubMatrix rows cols subm skip_zeros).val r c
      = A.val r c + scatterEntry rows cols subm.data r c := by
  unfold SparseMatrix.AddSubMatrix scatterEntry
  apply foldl_val_eq
  intro M i
  apply foldl_val_eq
  intro N j
  generalize rows.getD i 0 = gi
  generalize cols.getD j 0 = gj
  by_cases hz : skip_zeros ≠ 0 ∧ subm.data i j = 0
  · simp only [hz, and_self, if_true, ne_eq, not_false_eq_true]
    simp [hz.2]
  · simp only [if_neg hz, SparseMatrix.AddEntry, decodeSign]
    by_cases h1 : decodeDof gi = r ∧ decodeDof gj = c
    · rw [if_pos ⟨h1.1.symm, h1.2.symm⟩, if_pos h1]
      congr 1
      by_cases hi : gi < 0 <;> by_cases hj : gj < 0 <;> simp [hi, hj]
    · have h2 : ¬ (r = decodeDof gi ∧ c = decodeDof gj) :=
        fun h => h1 ⟨h.1.symm, h.2.symm⟩
      rw [if_neg h2, if_neg h1, add_zero]

theorem scatterEntry_zero (rows cols : List Int) (r c : Nat) :
    scatterEntry rows cols (fun _ _ => (0 : α)) r c = 0 := by
  simp [scatterEntry]

theorem scatterEntry_add (rows cols : List Int) (m n : Nat → Nat → α) (r c : Nat) :
    scatterEntry rows cols (fun a b => m a b + n a b) r c
      = scatterEntry rows cols m r c + scatterEntry rows cols n r c := by
  unfold scatterEntry
  rw [← List.sum_map_add]
  congr 1
  apply List.map_congr_left
  intro a _
  rw [← List.sum_map_add]
  congr 1
  apply List.map_congr_left
  intro b _
  split_ifs <;> ring

theorem scatterEntry_congr (rows cols : List Int) (m n : Nat → Nat → α) (r c : Nat)
    (h : ∀ a b, a < rows.length → b < cols.length → m a b = n a b) :
    scatterEntry rows cols m r c = scatterEntry rows cols n r c := by
  unfold scatterEntry
  congr 1
  apply List.map_congr_left
  intro a ha
  congr 1
  apply List.map_congr_left
  intro b hb
  rw [h a b (List.mem_range.1 ha) (List.mem_range.1 hb)]

theorem scatterEntry_localSum (rows cols : List Int) (bfi : List (BilinearFormIntegrator α))
    (e r c : Nat) :
    scatterEntry rows cols (localSum bfi e) r c
      = (bfi.map (fun I => scatterEntry rows cols (I e).data r c)).sum := by
  induction bfi with
  | nil => simpa [localSum] using scatterEntry_zero rows cols r c
  | cons I rest ih =>
    have : localSum (I :: rest) e = fun a b => (I e).data a b + localSum rest e a b := by
      funext a b; simp [localSum]
    rw [this, scatterEntry_add, ih]; simp

theorem foldl_integrators_val (vdofs : List Int) (bfi : List (BilinearFormIntegrator α))
    (i : Nat) (skip_zeros : Int) (mat : SparseMatrix α) (r c : Nat) :
    (bfi.foldl (fun mat I => mat.AddSubMatrix vdofs vdofs (I i) skip_zeros) mat).val r c
      = mat.val r c + scatterEntry vdofs vdofs (localSum bfi i) r c := by
  rw [scatterEntry_localSum]
  exact foldl_val_eq _ (fun I => scatterEntry vdofs vdofs (I i).data r c) r c
    (fun M I => AddSubMatrix_val M vdofs vdofs (I i) skip_zeros r c) bfi mat

theorem domainEntry_nil (fes : FiniteElementSpace α) (r c : Nat) :
    domainEntry fes [] r c = 0 := by
  unfold domainEntry
  have : ∀ e, scatterEntry (fes.GetElementVDofs e) (fes.GetElementVDofs e)
      (localSum ([] : List (BilinearFormIntegrator α)) e) r c = 0 := by
    intro e
    rw [scatterEntry_localSum]; simp
  simp [this]

theorem assembleDomain_val (fes : FiniteElementSpace α)
    (dbfi : List (BilinearFormIntegrator α)) (skip_zeros : Int) (mat : SparseMatrix α)
    (r c : Nat) :
    (assembleDomain fes dbfi none skip_zeros mat).val r c
      = mat.val r c + domainEntry fes dbfi r c := by
  unfold assembleDomain
  by_cases h : dbfi.length ≠ 0
  · rw [if_pos h]
    exact foldl_val_eq _ _ r c
      (fun M e => foldl_integrators_val (fes.GetElementVDofs e) dbfi e skip_zeros M r c) _ mat
  · rw [if_neg h]
    have : dbfi = [] := List.length_eq_zero.1 (not_not.1 h)
    rw [this, domainEntry_nil, add_zero]

/-- With cached element matrices the domain loop adds the scattered cache. -/
theorem assembleDomain_val_cached (fes : FiniteElementSpace α)
    (dbfi : List (BilinearFormIntegrator α)) (T : DenseTensor α) (skip_zeros : Int)
    (mat : SparseMatrix α) (hd : dbfi.length ≠ 0) (r c : Nat) :
    (assembleDomain fes dbfi (some T) skip_zeros mat).val r c
      = mat.val r c + ((List.range fes.GetNE).map (fun e =>
          scatterEntry (fes.GetElementVDofs e) (fes.GetElementVDofs e) (T.data e) r c)).sum := by
  unfold assembleDomain
  rw [if_pos hd]
  exact foldl_val_eq _ _ r c
    (fun M e => AddSubMatrix_val M (fes.GetElementVDofs e) (fes.GetElementVDofs e)
      (T.get e) skip_zeros r c) _ mat

theorem foldl_add_dims (rest : List (BilinearFormIntegrator α)) (i : Nat)
    (m0 : DenseMatrix α) :
    (rest.foldl (fun elmat I => elmat.add (I i)) m0).height = m0.height ∧
    (rest.foldl (fun elmat I => elmat.add (I i)) m0).width = m0.width := by
  induction rest generalizing m0 with
  | nil => simp
  | cons I rest ih =>
    rw [List.foldl_cons]
    exact ih (m0.add (I i))

theorem foldl_add_data (rest : List (BilinearFormIntegrator α)) (i : Nat)
    (m0 : DenseMatrix α) (a b : Nat) (ha : a < m0.height) (hb : b < m0.width) :
    (rest.foldl (fun elmat I => elmat.add (I i)) m0).data a b
      = m0.data a b + (rest.map (fun I => (I i).data a b)).sum := by
  induction rest generalizing m0 with
  | nil => simp
  | cons I rest ih =>
    rw [List.foldl_cons, ih (m0.add (I i)) ha hb]
    simp [DenseMatrix.add, ha, hb, add_assoc]

theorem sumElementMatrices_data (dbfi : List (BilinearFormIntegrator α)) (i a b : Nat)
    (hd : dbfi ≠ [])
    (ha : a < (dbfi.headD (fun _ => DenseMatrix.zero 0) i).height)
    (hb : b < (dbfi.headD (fun _ => DenseMatrix.zero 0) i).width) :
    (sumElementMatrices dbfi i).data a b = localSum dbfi i a b := by
  cases dbfi with
  | nil => exact absurd rfl hd
  | cons I0 rest =>
    simp only [List.headD_cons] at ha hb
    simp only [sumElementMatrices, localSum, List.map_cons, List.sum_cons]
    exact foldl_add_data rest i (I0 i) a b ha hb

theorem computeElementLoop_ok (debug : Bool) (fes : FiniteElementSpace α)
    (dbfi : List (BilinearFormIntegrator α)) (n : Nat) (l : List Nat)
    (hl : ∀ i ∈ l, n = fes.GetFEDof i * fes.GetVDim) (T : DenseTensor α) :
    ∃ T2, computeElementLoop debug fes dbfi n l T = .ok T2 ∧
      ∀ k, T2.data k = if k ∈ l then (sumElementMatrices dbfi k).data else T.data k := by
  induction l generalizing T with
  | nil => exact ⟨T, rfl, fun k => by simp⟩
  | cons i rest ih =>
    have hi : ¬ (debug = true ∧ n ≠ fes.GetFEDof i * fes.GetVDim) :=
      fun h => h.2 (hl i (List.mem_cons_self i rest))
    obtain ⟨T2, h2, hdata⟩ := ih (fun j hj => hl j (List.mem_cons_of_mem i hj))
      (T.set i (sumElementMatrices dbfi i))
    refine ⟨T2, ?_, ?_⟩
    · simp only [computeElementLoop, if_neg hi]
      exact h2
    · intro k
      rw [hdata k]
      by_cases hk : k ∈ rest
      · simp [hk]
      · by_cases hki : k = i
        · subst hki
          simp [hk, DenseTensor.set]
        · simp [hk, hki, DenseTensor.set]

theorem AllocMatrix_val (bf : BilinearForm α) (r c : Nat) : bf.AllocMatrix.val r c = 0 := by
  unfold BilinearForm.AllocMatrix
  split_ifs <;> rfl

theorem computeElementLoop_error (fes : FiniteElementSpace α)
    (dbfi : List (BilinearFormIntegrator α)) (n : Nat) (l : List Nat)
    (hl : ∃ i ∈ l, n ≠ fes.GetFEDof i * fes.GetVDim) (T : DenseTensor α) :
    ∃ msg, computeElementLoop true fes dbfi n l T = .error msg := by
  induction l generalizing T with
  | nil =>
    obtain ⟨i, hi, _⟩ := hl
    exact absurd hi (List.not_mem_nil i)
  | cons j rest ih =>
    by_cases hj : n ≠ fes.GetFEDof j * fes.GetVDim
    · refine ⟨uniformDofsMessage, ?_⟩
      have hj1 : (true = true ∧ n ≠ fes.GetFEDof j * fes.GetVDim) := ⟨rfl, hj⟩
      rw [computeElementLoop, if_pos hj1]
    · have hrest : ∃ i ∈ rest, n ≠ fes.GetFEDof i * fes.GetVDim := by
        obtain ⟨i, hi, hne⟩ := hl
        rcases List.mem_cons.1 hi with h | h
        · subst h; exact absurd hne hj
        · exact ⟨i, h, hne⟩
      obtain ⟨msg, hmsg⟩ := ih hrest (T.set j (sumElementMatrices dbfi j))
      refine ⟨msg, ?_⟩
      have hj2 : ¬ (true = true ∧ n ≠ fes.GetFEDof j * fes.GetVDim) := fun h => hj h.2
      rw [computeElementLoop, if_neg hj2]
      exact hmsg

theorem computeElementLoop_release (fes : FiniteElementSpace α)
    (dbfi : List (BilinearFormIntegrator α)) (n : Nat) (l : List Nat) (T : DenseTensor α) :
    ∃ T2, computeElementLoop false fes dbfi n l T = .ok T2 := by
  induction l generalizing T with
  | nil => exact ⟨T, rfl⟩
  | cons j rest ih =>
    obtain ⟨T2, h2⟩ := ih (T.set j (sumElementMatrices dbfi j))
    refine ⟨T2, ?_⟩
    have hj2 : ¬ (false = true ∧ n ≠ fes.GetFEDof j * fes.GetVDim) :=
      fun h => Bool.noConfusion h.1
    rw [computeElementLoop, if_neg hj2]
    exact h2

theorem assembledMat_AllocMat (bf : BilinearForm α) (skip_zeros : Int)
    (hmat : bf.mat = none) :
    bf.AllocMat.assembledMat skip_zeros = bf.assembledMat skip_zeros := by
  simp only [BilinearForm.assembledMat, BilinearForm.AllocMat, hmat]

/-- On the fly, from a zero operator and with domain integrators only, the loops leave
the scattered sums. -/
theorem assembledMat_val_fly (bf : BilinearForm α) (skip_zeros : Int)
    (hz : ∀ M0, bf.mat = some M0 → ∀ r c, M0.val r c = 0)
    (hcache : bf.element_matrices = none)
    (hb : bf.bbfi = []) (hf : bf.fbfi = []) (hbf : bf.bfbfi = []) (r c : Nat) :
    (bf.assembledMat skip_zeros).val r c = domainEntry bf.fes bf.dbfi r c := by
  simp only [BilinearForm.assembledMat, hcache, hb, hf, hbf, assembleBoundary,
    assembleInteriorFaces, assembleBdrFaces, List.length_nil, ne_eq, not_true_eq_false,
    if_false]
  rw [assembleDomain_val]
  cases hm : bf.mat with
  | none => simp only [AllocMatrix_val, zero_add]
  | some M0 => simp only [hz M0 hm, zero_add]

/-- From a cache that holds the summed local matrices, from a zero operator and with
domain integrators only, the loops leave the scattered sums. -/
theorem assembledMat_val_cache (bf : BilinearForm α) (skip_zeros : Int) (T : DenseTensor α)
    (hz : ∀ M0, bf.mat = some M0 → ∀ r c, M0.val r c = 0)
    (hT : bf.element_matrices = some T) (hd : bf.dbfi ≠ [])
    (hb : bf.bbfi = []) (hf : bf.fbfi = []) (hbf : bf.bfbfi = [])
    (hdata : ∀ e, e < bf.fes.GetNE → ∀ a b, a < (bf.fes.GetElementVDofs e).length →
      b < (bf.fes.GetElementVDofs e).length → T.data e a b = localSum bf.dbfi e a b)
    (r c : Nat) :
    (bf.assembledMat skip_zeros).val r c = domainEntry bf.fes bf.dbfi r c := by
  have hlen : bf.dbfi.length ≠ 0 := fun h => hd (List.length_eq_zero.1 h)
  simp only [BilinearForm.assembledMat, hT, hb, hf, hbf, assembleBoundary,
    assembleInteriorFaces, assembleBdrFaces, List.length_nil, ne_eq, not_true_eq_false,
    if_false]
  rw [assembleDomain_val_cached _ _ _ _ _ hlen]
  have h0 : (match bf.mat with
      | none => bf.AllocMatrix
      | some m => m).val r c = 0 := by
    cases hm : bf.mat with
    | none => exact AllocMatrix_val bf r c
    | some M0 => exact hz M0 hm r c
  rw [h0, zero_add]
  unfold domainEntry
  congr 1
  apply List.map_congr_left
  intro e he
  exact scatterEntry_congr _ _ _ _ r c (fun a b ha hb2 => hdata e (List.mem_range.1 he) a b ha hb2)

/-- With a uniform dof count and integrators producing matrices of that size,
`ComputeElementMatrices` succeeds in either build and its cache holds the summed
local matrices; without elements it returns the form as it is. -/
theorem ComputeElementMatrices_uniform (bf : BilinearForm α) (debug : Bool)
    (hcache : bf.element_matrices = none) (hd : bf.dbfi ≠ [])
    (hu : ∀ e, e < bf.fes.GetNE →
      bf.fes.GetFEDof e * bf.fes.GetVDim = bf.fes.GetFEDof 0 * bf.fes.GetVDim ∧
      (bf.fes.GetElementVDofs e).length = bf.fes.GetFEDof e * bf.fes.GetVDim ∧
      ∀ I ∈ bf.dbfi, (I e).height = (bf.fes.GetElementVDofs e).length ∧
        (I e).width = (bf.fes.GetElementVDofs e).length) :
    (bf.fes.GetNE = 0 → bf.ComputeElementMatrices debug = .ok bf) ∧
    (bf.fes.GetNE ≠ 0 → ∃ T,
      bf.ComputeElementMatrices debug = .ok { bf with element_matrices := some T } ∧
      ∀ e, e < bf.fes.GetNE → ∀ a b, a < (bf.fes.GetElementVDofs e).length →
        b < (bf.fes.GetElementVDofs e).length → T.data e a b = localSum bf.dbfi e a b) := by
  have hlen : bf.dbfi.length ≠ 0 := fun h => hd (List.length_eq_zero.1 h)
  constructor
  · intro hNE
    simp [BilinearForm.ComputeElementMatrices, hNE]
  · intro hNE
    obtain ⟨T, hT, hdata⟩ := computeElementLoop_ok debug bf.fes bf.dbfi
      (bf.fes.GetFEDof 0 * bf.fes.GetVDim) (List.range bf.fes.GetNE)
      (fun i hi => ((hu i (List.mem_range.1 hi)).1).symm)
      { SizeI := bf.fes.GetFEDof 0 * bf.fes.GetVDim,
        SizeJ := bf.fes.GetFEDof 0 * bf.fes.GetVDim,
        SizeK := bf.fes.GetNE, data := fun _ _ _ => 0 }
    refine ⟨T, ?_, ?_⟩
    · simp only [BilinearForm.ComputeElementMatrices, hcache, Option.isSome_none,
        Bool.false_eq_true, hlen, hNE, or_self, if_false, hT]
    · intro e he a b ha hb2
      rw [hdata e, if_pos (List.mem_range.2 he)]
      obtain ⟨I0, rest, hI⟩ := List.exists_cons_of_ne_nil hd
      have hdim := (hu e he).2.2 I0 (by rw [hI]; exact List.mem_cons_self _ _)
      apply sumElementMatrices_data _ _ _ _ hd
      · rw [hI, List.headD_cons, hdim.1]; exact ha
      · rw [hI, List.headD_cons, hdim.2]; exact hb2

/-- In a build with `MFEM_DEBUG`, `ComputeElementMatrices` on a form without cache
fails when an element's dof count differs from that of element 0. -/
theorem ComputeElementMatrices_debug_error (bf : BilinearForm α) (i : Nat)
    (hcache : bf.element_matrices = none) (hd : bf.dbfi ≠ []) (hi : i < bf.fes.GetNE)
    (hne : bf.fes.GetFEDof i * bf.fes.GetVDim ≠ bf.fes.GetFEDof 0 * bf.fes.GetVDim) :
    ∃ msg, bf.ComputeElementMatrices true = .error msg := by
  have hlen : bf.dbfi.length ≠ 0 := fun h => hd (List.length_eq_zero.1 h)
  have hNE : bf.fes.GetNE ≠ 0 := fun h => by rw [h] at hi; exact Nat.not_lt_zero i hi
  have hcond : ¬ (bf.element_matrices.isSome = true ∨ bf.dbfi.length = 0 ∨
      bf.fes.GetNE = 0) := by
    rw [hcache]
    simp [hlen, hNE]
  obtain ⟨msg, hmsg⟩ := computeElementLoop_error bf.fes bf.dbfi
    (bf.fes.GetFEDof 0 * bf.fes.GetVDim) (List.range bf.fes.GetNE)
    ⟨i, List.mem_range.2 hi, fun h => hne h.symm⟩
    { SizeI := bf.fes.GetFEDof 0 * bf.fes.GetVDim,
      SizeJ := bf.fes.GetFEDof 0 * bf.fes.GetVDim,
      SizeK := bf.fes.GetNE, data := fun _ _ _ => 0 }
  exact ⟨msg, by simp only [BilinearForm.ComputeElementMatrices, if_neg hcond, hmsg]⟩

/-- In a build without `MFEM_USE_OPENMP`, `Assemble` runs the loops on the operator it
holds or allocates. -/
theorem Assemble_serial (debug : Bool) (bf : BilinearForm α) (skip_zeros : Int) :
    ∃ bf2, bf.Assemble false debug skip_zeros = .ok bf2 ∧
      bf2.mat = some (bf.assembledMat skip_zeros) ∧ bf2.element_matrices = bf.element_matrices := by
  cases hm : bf.mat with
  | none =>
    refine ⟨{ bf.AllocMat with mat := some (bf.AllocMat.assembledMat skip_zeros) }, ?_, ?_, rfl⟩
    · simp [BilinearForm.Assemble, hm]
    · rw [← assembledMat_AllocMat bf skip_zeros hm]
  | some M0 =>
    refine ⟨{ bf with mat := some (bf.assembledMat skip_zeros) }, ?_, rfl, rfl⟩
    simp [BilinearForm.Assemble, hm]

/-- Assembly from an empty operator with domain integrators only, uniform dof count
and matching integrator sizes, from no cache or from a cache holding the summed
local matrices, in any build. -/
theorem Assemble_uniform (openmp debug : Bool) (g : BilinearForm α) (skip_zeros : Int)
    (hmat : g.mat = none) (hd : g.dbfi ≠ []) (hb : g.bbfi = []) (hf : g.fbfi = [])
    (hbf : g.bfbfi = [])
    (hu : ∀ e, e < g.fes.GetNE →
      g.fes.GetFEDof e * g.fes.GetVDim = g.fes.GetFEDof 0 * g.fes.GetVDim ∧
      (g.fes.GetElementVDofs e).length = g.fes.GetFEDof e * g.fes.GetVDim ∧
      ∀ I ∈ g.dbfi, (I e).height = (g.fes.GetElementVDofs e).length ∧
        (I e).width = (g.fes.GetElementVDofs e).length)
    (hcache : g.element_matrices = none ∨ ∃ T, g.element_matrices = some T ∧
      ∀ e, e < g.fes.GetNE → ∀ a b, a < (g.fes.GetElementVDofs e).length →
        b < (g.fes.GetElementVDofs e).length → T.data e a b = localSum g.dbfi e a b) :
    ∃ bf2 M, g.Assemble openmp debug skip_zeros = .ok bf2 ∧ bf2.mat = some M ∧
      ∀ r c, M.val r c = domainEntry g.fes g.dbfi r c := by
  have hzA : ∀ M0, g.AllocMat.mat = some M0 → ∀ r c, M0.val r c = 0 := by
    intro M0 hM0 r c
    have : M0 = g.AllocMatrix := (Option.some.inj hM0).symm
    rw [this]; exact AllocMatrix_val g r c
  rcases hcache with hnone | ⟨T, hT, hdata⟩
  · cases openmp with
    | false =>
      obtain ⟨bf2, h1, h2, _⟩ := Assemble_serial debug g skip_zeros
      exact ⟨bf2, _, h1, h2, fun r c =>
        assembledMat_val_fly g skip_zeros (fun M0 h => by rw [hmat] at h; exact Option.noConfusion h)
          hnone hb hf hbf r c⟩
    | true =>
      have hcem := ComputeElementMatrices_uniform g.AllocMat debug hnone hd hu
      by_cases hNE : g.fes.GetNE = 0
      · have h1 := hcem.1 hNE
        refine ⟨BilinearForm.FreeElementMatrices
            { g.AllocMat with mat := some (g.AllocMat.assembledMat skip_zeros) },
          g.AllocMat.assembledMat skip_zeros, ?_, rfl, fun r c =>
          assembledMat_val_fly g.AllocMat skip_zeros hzA hnone hb hf hbf r c⟩
        have hiso : g.AllocMat.element_matrices.isNone = true := by
          rw [show g.AllocMat.element_matrices = none from hnone]; rfl
        simp only [BilinearForm.Assemble, hmat, hiso, and_self, if_true, h1]
      · obtain ⟨T, h1, hdata⟩ := hcem.2 hNE
        refine ⟨BilinearForm.FreeElementMatrices
            { ({ g.AllocMat with element_matrices := some T } : BilinearForm α) with
              mat := some (({ g.AllocMat with element_matrices := some T } :
                BilinearForm α).assembledMat skip_zeros) },
          ({ g.AllocMat with element_matrices := some T } :
            BilinearForm α).assembledMat skip_zeros, ?_, rfl, fun r c =>
          assembledMat_val_cache { g.AllocMat with element_matrices := some T } skip_zeros T
            hzA rfl hd hb hf hbf hdata r c⟩
        have hiso : g.AllocMat.element_matrices.isNone = true := by
          rw [show g.AllocMat.element_matrices = none from hnone]; rfl
        simp only [BilinearForm.Assemble, hmat, hiso, and_self, if_true, h1]
  · refine ⟨{ g.AllocMat with mat := some (g.AllocMat.assembledMat skip_zeros) },
      g.AllocMat.assembledMat skip_zeros, ?_, rfl, fun r c =>
      assembledMat_val_cache g.AllocMat skip_zeros T hzA hT hd hb hf hbf hdata r c⟩
    have hiso : g.AllocMat.element_matrices.isNone = false := by
      rw [show g.AllocMat.element_matrices = some T from hT]; rfl
    simp only [BilinearForm.Assemble, hmat, hiso, Bool.false_eq_true, and_false, if_false]

/-- C1 (amended): from an empty operator with only domain integrators registered,
`BilinearForm::Assemble` in a build without `MFEM_USE_OPENMP` yields, for every mesh
and dof space, the matrix whose entry `(r, c)` is the sum over the elements `e` and
the local pairs `(a, b)` whose vdofs decode to `r` and `c` of
`sign(a) * sign(b) * K_e[a][b]`, with `K_e` the sum of the integrators' local
matrices.  When the elements have a uniform dof count and the integrators produce
matrices of that size, the same holds in a build with `MFEM_USE_OPENMP`, and
`ComputeElementMatrices` succeeds, leaves a cache when there are elements, and
assembling from that cache yields the same entries in either build.  In a build with
`MFEM_USE_OPENMP` and `MFEM_DEBUG`, `Assemble` fails with the fatal error when some
element's dof count differs from that of element 0. -/
theorem assemble_domain_entries (bf : BilinearForm α) (skip_zeros : Int)
    (hmat : bf.mat = none) (hcache : bf.element_matrices = none)
    (hd : bf.dbfi ≠ []) (hb : bf.bbfi = []) (hf : bf.fbfi = []) (hbf : bf.bfbfi = []) :
    (∀ debug : Bool, ∃ bf2 M, bf.Assemble false debug skip_zeros = .ok bf2 ∧
      bf2.mat = some M ∧ ∀ r c, M.val r c = domainEntry bf.fes bf.dbfi r c) ∧
    ((∀ e, e < bf.fes.GetNE →
        bf.fes.GetFEDof e * bf.fes.GetVDim = bf.fes.GetFEDof 0 * bf.fes.GetVDim ∧
        (bf.fes.GetElementVDofs e).length = bf.fes.GetFEDof e * bf.fes.GetVDim ∧
        ∀ I ∈ bf.dbfi, (I e).height = (bf.fes.GetElementVDofs e).length ∧
          (I e).width = (bf.fes.GetElementVDofs e).length) →
      ∀ openmp debug : Bool,
        (∃ bf2 M, bf.Assemble openmp debug skip_zeros = .ok bf2 ∧ bf2.mat = some M ∧
          ∀ r c, M.val r c = domainEntry bf.fes bf.dbfi r c) ∧
        (∃ bfc, bf.ComputeElementMatrices debug = .ok bfc ∧
          (bf.fes.GetNE ≠ 0 → ∃ T, bfc.element_matrices = some T) ∧
          ∃ bf2 M, bfc.Assemble openmp debug skip_zeros = .ok bf2 ∧ bf2.mat = some M ∧
            ∀ r c, M.val r c = domainEntry bf.fes bf.dbfi r c)) ∧
    (∀ i, i < bf.fes.GetNE →
      bf.fes.GetFEDof i * bf.fes.GetVDim ≠ bf.fes.GetFEDof 0 * bf.fes.GetVDim →
      ∃ msg, bf.Assemble true true skip_zeros = .error msg) := by
  refine ⟨fun debug => ?_, fun hu openmp debug => ⟨?_, ?_⟩, fun i hi hne => ?_⟩
  · obtain ⟨bf2, h1, h2, _⟩ := Assemble_serial debug bf skip_zeros
    exact ⟨bf2, _, h1, h2, fun r c =>
      assembledMat_val_fly bf skip_zeros
        (fun M0 h => by rw [hmat] at h; exact Option.noConfusion h) hcache hb hf hbf r c⟩
  · exact Assemble_uniform openmp debug bf skip_zeros hmat hd hb hf hbf hu (Or.inl hcache)
  · have hcem := ComputeElementMatrices_uniform bf debug hcache hd hu
    by_cases hNE : bf.fes.GetNE = 0
    · exact ⟨bf, hcem.1 hNE, fun h => absurd hNE h,
        Assemble_uniform openmp debug bf skip_zeros hmat hd hb hf hbf hu (Or.inl hcache)⟩
    · obtain ⟨T, h1, hdata⟩ := hcem.2 hNE
      exact ⟨{ bf with element_matrices := some T }, h1, fun _ => ⟨T, rfl⟩,
        Assemble_uniform openmp debug { bf with element_matrices := some T } skip_zeros
          hmat hd hb hf hbf hu (Or.inr ⟨T, rfl, hdata⟩)⟩
  · obtain ⟨msg, hmsg⟩ := ComputeElementMatrices_debug_error bf.AllocMat i hcache hd hi hne
    refine ⟨msg, ?_⟩
    have hiso : bf.AllocMat.element_matrices.isNone = true := by
      rw [show bf.AllocMat.element_matrices = none from hcache]; rfl
    simp only [BilinearForm.Assemble, hmat, hiso, and_self, if_true, hmsg]

/-- Witness of C1 (amended): on two line elements with vdofs `[0, 1]` and `[1, 2]` and
the local matrix `K = [[2, -3], [-5, 7]]`, assembly without and with
`MFEM_USE_OPENMP`, and assembly from the cache of `ComputeElementMatrices`, give the
entry `(1, 1) = K[1][1] + K[0][0] = 9` and the entries `(0, 2) = (2, 0) = 0`. -/
theorem assemble_domain_entries_witness :
    (∃ bf2 M, twoLineForm.Assemble false false 1 = .ok bf2 ∧ bf2.mat = some M ∧
      M.val 1 1 = 7 + 2 ∧ M.val 0 2 = 0 ∧ M.val 2 0 = 0 ∧ M.val 0 1 = -3) ∧
    (∃ bf2 M, twoLineForm.Assemble true true 1 = .ok bf2 ∧ bf2.mat = some M ∧
      M.val 1 1 = 7 + 2 ∧ M.val 0 2 = 0 ∧ M.val 2 0 = 0 ∧ M.val 0 1 = -3) ∧
    (∃ bfc T, twoLineForm.ComputeElementMatrices true = .ok bfc ∧
      bfc.element_matrices = some T ∧
      ∃ bf2 M, bfc.Assemble false true 1 = .ok bf2 ∧ bf2.mat = some M ∧
        M.val 1 1 = 7 + 2 ∧ M.val 0 2 = 0 ∧ M.val 2 0 = 0 ∧ M.val 0 1 = -3) := by
  have h := assemble_domain_entries twoLineForm 1 rfl rfl (List.cons_ne_nil _ _) rfl rfl rfl
  obtain ⟨hs, hu, _⟩ := h
  have e11 : domainEntry twoLineForm.fes twoLineForm.dbfi 1 1 = 7 + 2 := by decide
  have e02 : domainEntry twoLineForm.fes twoLineForm.dbfi 0 2 = 0 := by decide
  have e20 : domainEntry twoLineForm.fes twoLineForm.dbfi 2 0 = 0 := by decide
  have e01 : domainEntry twoLineForm.fes twoLineForm.dbfi 0 1 = -3 := by decide
  have huni : ∀ e, e < twoLineForm.fes.GetNE →
      twoLineForm.fes.GetFEDof e * twoLineForm.fes.GetVDim
        = twoLineForm.fes.GetFEDof 0 * twoLineForm.fes.GetVDim ∧
      (twoLineForm.fes.GetElementVDofs e).length
        = twoLineForm.fes.GetFEDof e * twoLineForm.fes.GetVDim ∧
      ∀ I ∈ twoLineForm.dbfi, (I e).height = (twoLineForm.fes.GetElementVDofs e).length ∧
        (I e).width = (twoLineForm.fes.GetElementVDofs e).length := by
    intro e he
    have : e = 0 ∨ e = 1 := by
      have : e < 2 := he
      omega
    rcases this with rfl | rfl
    · refine ⟨rfl, rfl, ?_⟩
      intro I hI
      have : I = stiffness2 := by simpa [twoLineForm] using hI
      subst this
      exact ⟨rfl, rfl⟩
    · refine ⟨rfl, rfl, ?_⟩
      intro I hI
      have : I = stiffness2 := by simpa [twoLineForm] using hI
      subst this
      exact ⟨rfl, rfl⟩
  obtain ⟨bf2, M, h1, h2, h3⟩ := hs false
  obtain ⟨⟨bf3, M3, k1, k2, k3⟩, _⟩ := hu huni true true
  obtain ⟨_, ⟨bfc, c1, c2, bf4, M4, c3, c4, c5⟩⟩ := hu huni false true
  obtain ⟨T, hT⟩ := c2 (by decide)
  refine ⟨⟨bf2, M, h1, h2, ?_, ?_, ?_, ?_⟩, ⟨bf3, M3, k1, k2, ?_, ?_, ?_, ?_⟩,
    ⟨bfc, T, c1, hT, bf4, M4, c3, c4, ?_, ?_, ?_, ?_⟩⟩
  · rw [h3, e11]
  · rw [h3, e02]
  · rw [h3, e20]
  · rw [h3, e01]
  · rw [k3, e11]
  · rw [k3, e02]
  · rw [k3, e20]
  · rw [k3, e01]
  · rw [c5, e11]
  · rw [c5, e02]
  · rw [c5, e20]
  · rw [c5, e01]

/-- Counterexample to C1: `mixedForm` has no operator, no cache and a single domain
integrator on two elements of 2 and 3 dofs; in a build with `MFEM_USE_OPENMP` and
`MFEM_DEBUG`, `Assemble` ends in the fatal error of `ComputeElementMatrices` and
yields no matrix. -/
theorem assemble_openmp_nonuniform_fails :
    mixedForm.mat = none ∧ mixedForm.element_matrices = none ∧
    mixedForm.dbfi = [unitIntegrator] ∧ mixedForm.bbfi = [] ∧ mixedForm.fbfi = [] ∧
    mixedForm.bfbfi = [] ∧
    mixedForm.Assemble true true 1 = .error uniformDofsMessage :=
  ⟨rfl, rfl, rfl, rfl, rfl, rfl, rfl⟩

/-! ## Additivity of the assembly -/

theorem sum_range_zero (n : Nat) (f : Nat → α) (h : ∀ i, i < n → f i = 0) :
    ((List.range n).map f).sum = 0 := by
  induction n with
  | zero => simp
  | succ n ih =>
    rw [List.range_succ, List.map_append, List.sum_append,
      ih (fun i hi => h i (Nat.lt_succ_of_lt hi))]
    simp [h n (Nat.lt_succ_self n)]

theorem sum_range_single (n x : Nat) (v : α) (hx : x < n) :
    ((List.range n).map (fun i => if i = x then v else 0)).sum = v := by
  induction n with
  | zero => exact absurd hx (Nat.not_lt_zero x)
  | succ n ih =>
    rw [List.range_succ, List.map_append, List.sum_append]
    by_cases hxn : x = n
    · subst hxn
      rw [sum_range_zero]
      · simp
      · intro i hi
        simp [Nat.ne_of_lt hi]
    · have hlt : x < n := by omega
      rw [ih hlt]
      have : n ≠ x := fun h => hxn h.symm
      simp [this]

theorem essentialSum_congr (A : SparseMatrix α) (sol : Vector α) (ess ess2 : Nat → Bool)
    (n r : Nat) (h : ∀ i, i < n → ess i = ess2 i) :
    essentialSum A sol ess n r = essentialSum A sol ess2 n r := by
  unfold essentialSum
  congr 1
  apply List.map_congr_left
  intro i hi
  rw [h i (List.mem_range.1 hi)]

theorem essentialSum_insert (A : SparseMatrix α) (sol : Vector α) (ess : Nat → Bool)
    (n r x : Nat) (hx : x < n) (hess : ess x = false) :
    essentialSum A sol (fun i => ess i || decide (i = x)) n r
      = essentialSum A sol ess n r + A.val r x * sol x := by
  unfold essentialSum
  rw [← sum_range_single n x (A.val r x * sol x) hx, ← List.sum_map_add]
  congr 1
  apply List.map_congr_left
  intro i _
  by_cases hi : i = x
  · subst hi
    simp [hess]
  · simp [hi]

theorem EliminateRowCol_closed (A : SparseMatrix α) (sol rhs : Vector α) (d : Int)
    (ess : Nat → Bool) (n x : Nat) (hx : x < n) :
    (eliminatedMat A d ess).EliminateRowCol x (sol x) (eliminatedRhs A sol rhs d ess n) d
      = (eliminatedMat A d (fun i => ess i || decide (i = x)),
         eliminatedRhs A sol rhs d (fun i => ess i || decide (i = x)) n) := by
  unfold SparseMatrix.EliminateRowCol
  refine Prod.ext ?_ ?_
  · simp only [eliminatedMat]
    congr 1
    funext r c
    by_cases hr : r = x
    · subst hr
      by_cases hc : c = r
      · subst hc
        by_cases hd : d = 0 <;> by_cases hex : ess c = true <;> simp [hd, hex]
      · have hc2 : ¬ r = c := fun h => hc h.symm
        simp [hc, hc2]
    · by_cases hc : c = x
      · subst hc
        simp [hr]
      · simp [hr, hc]
  · funext r
    simp only [eliminatedRhs, eliminatedMat]
    by_cases hr : r = x
    · subst hr
      by_cases hd : d = 0 <;> by_cases hex : ess r = true <;> simp [hd, hex]
    · by_cases her : ess r = true
      · simp [hr, her]
      · have her2 : ess r = false := by simpa using her
        by_cases hex : ess x = true
        · have hc : essentialSum A sol (fun i => ess i || decide (i = x)) n r
              = essentialSum A sol ess n r := by
            apply essentialSum_congr
            intro i _
            by_cases hi : i = x
            · subst hi; simp [hex]
            · simp [hi]
          simp [hr, her2, hex, hc]
        · have hex2 : ess x = false := by simpa using hex
          rw [if_neg hr]
          simp only [hr, her2, hex2, Bool.false_eq_true, or_self, if_false, Bool.false_or,
            decide_eq_true_eq]
          rw [essentialSum_insert A sol ess n r x hx hex2]
          ring

theorem eliminatedMat_none (A : SparseMatrix α) (d : Int) :
    eliminatedMat A d (fun _ => false) = A := by
  simp [eliminatedMat]

theorem essentialSum_none (A : SparseMatrix α) (sol : Vector α) (n r : Nat) :
    essentialSum A sol (fun _ => false) n r = 0 := by
  simp [essentialSum]

theorem eliminatedRhs_none (A : SparseMatrix α) (sol rhs : Vector α) (d : Int) (n : Nat) :
    eliminatedRhs A sol rhs d (fun _ => false) n = rhs := by
  funext r
  simp [eliminatedRhs, essentialSum_none]

theorem eliminateDofs_closed (A : SparseMatrix α) (sol rhs : Vector α) (d : Int) (n : Nat)
    (L : List Nat) (hL : ∀ i ∈ L, i < n) (ess : Nat → Bool) :
    eliminateDofs sol d L (eliminatedMat A d ess, eliminatedRhs A sol rhs d ess n)
      = (eliminatedMat A d (fun i => ess i || decide (i ∈ L)),
         eliminatedRhs A sol rhs d (fun i => ess i || decide (i ∈ L)) n) := by
  induction L generalizing ess with
  | nil => simp [eliminateDofs]
  | cons x xs ih =>
    have hx : x < n := hL x (List.mem_cons_self x xs)
    have hstep := EliminateRowCol_closed A sol rhs d ess n x hx
    have hrest := ih (fun i hi => hL i (List.mem_cons_of_mem x hi))
      (fun i => ess i || decide (i = x))
    have hfun : (fun i => (ess i || decide (i = x)) || decide (i ∈ xs))
        = (fun i => ess i || decide (i ∈ x :: xs)) := by
      funext i
      simp [Bool.or_assoc]
    rw [hfun] at hrest
    rw [← hrest]
    simp only [eliminateDofs, List.foldl_cons]
    rw [hstep]

theorem eliminateDofs_from (A : SparseMatrix α) (sol rhs : Vector α) (d : Int) (n : Nat)
    (L : List Nat) (hL : ∀ i ∈ L, i < n) :
    eliminateDofs sol d L (A, rhs)
      = (eliminatedMat A d (fun i => decide (i ∈ L)),
         eliminatedRhs A sol rhs d (fun i => decide (i ∈ L)) n) := by
  have h := eliminateDofs_closed A sol rhs d n L hL (fun _ => false)
  rw [eliminatedMat_none, eliminatedRhs_none] at h
  simpa using h

theorem foldl_filter_if {σ β : Type} (f : σ → β → σ) (p : β → Prop) [DecidablePred p]
    (l : List β) (s : σ) :
    l.foldl (fun st i => if p i then f st i else st) s
      = (l.filter (fun i => decide (p i))).foldl f s := by
  induction l generalizing s with
  | nil => rfl
  | cons x xs ih =>
    by_cases hx : p x
    · simp [List.foldl_cons, List.filter_cons, hx, ih]
    · simp [List.foldl_cons, List.filter_cons, hx, ih]

/-- The marker loop of `EliminateEssentialBCFromDofs` in closed form. -/
theorem markerLoop_closed (A : SparseMatrix α) (ess_dofs : List Int) (sol rhs : Vector α)
    (d : Int) :
    (List.range ess_dofs.length).foldl
      (fun (st : SparseMatrix α × Vector α) i =>
        if ess_dofs.getD i 0 < 0 then st.1.EliminateRowCol i (sol i) st.2 d else st)
      (A, rhs)
      = (eliminatedMat A d (fun i => decide (ess_dofs.getD i 0 < 0)),
         eliminatedRhs A sol rhs d (fun i => decide (ess_dofs.getD i 0 < 0))
           ess_dofs.length) := by
  rw [foldl_filter_if (fun (st : SparseMatrix α × Vector α) i =>
    st.1.EliminateRowCol i (sol i) st.2 d) (fun i => ess_dofs.getD i 0 < 0)]
  have h := eliminateDofs_from A sol rhs d ess_dofs.length
    ((List.range ess_dofs.length).filter (fun i => decide (ess_dofs.getD i 0 < 0)))
    (fun i hi => List.mem_range.1 (List.mem_filter.1 hi).1)
  unfold eliminateDofs at h
  rw [h]
  have hfun : (fun i => decide (i ∈ (List.range ess_dofs.length).filter
        (fun i => decide (ess_dofs.getD i 0 < 0))))
      = (fun i => decide (ess_dofs.getD i 0 < 0)) := by
    funext i
    by_cases hi : i < ess_dofs.length
    · simp [List.mem_filter, hi]
    · have h0 : ess_dofs.getD i 0 = 0 := List.getD_eq_default _ _ (Nat.le_of_not_lt hi)
      rw [h0]
      simp [List.mem_filter, hi]
  rw [hfun]

theorem eliminatedMat_ess_off (A : SparseMatrix α) (d : Int) (ess : Nat → Bool) (i j : Nat)
    (hi : ess i = true) (hj : j ≠ i) :
    (eliminatedMat A d ess).val i j = 0 ∧ (eliminatedMat A d ess).val j i = 0 := by
  have hj2 : ¬ i = j := fun h => hj h.symm
  simp only [eliminatedMat, hi, true_or, or_true, if_true, if_neg hj, if_neg hj2, and_self]

theorem eliminatedMat_ess_diag (A : SparseMatrix α) (d : Int) (ess : Nat → Bool) (i : Nat)
    (hi : ess i = true) :
    (d = 0 → (eliminatedMat A d ess).val i i = 1) ∧
    (d ≠ 0 → (eliminatedMat A d ess).val i i = A.val i i) := by
  constructor
  · intro hd
    simp only [eliminatedMat, hi, true_or, if_true, hd]
  · intro hd
    simp only [eliminatedMat, hi, true_or, if_true, if_neg hd]

theorem eliminatedMat_free (A : SparseMatrix α) (d : Int) (ess : Nat → Bool) (r c : Nat)
    (hr : ess r = false) (hc : ess c = false) :
    (eliminatedMat A d ess).val r c = A.val r c := by
  simp only [eliminatedMat, hr, hc, Bool.false_eq_true, or_self, if_false]

theorem eliminatedRhs_ess (A : SparseMatrix α) (sol rhs : Vector α) (d : Int)
    (ess : Nat → Bool) (n i : Nat) (hi : ess i = true) :
    (d = 0 → eliminatedRhs A sol rhs d ess n i = sol i) ∧
    (d ≠ 0 → eliminatedRhs A sol rhs d ess n i = A.val i i * sol i) := by
  constructor
  · intro hd
    simp only [eliminatedRhs, hi, if_true, hd]
  · intro hd
    simp only [eliminatedRhs, hi, if_true, if_neg hd]

theorem eliminatedRhs_free (A : SparseMatrix α) (sol rhs : Vector α) (d : Int)
    (ess : Nat → Bool) (n r : Nat) (hr : ess r = false) :
    eliminatedRhs A sol rhs d ess n r = rhs r - essentialSum A sol ess n r := by
  simp only [eliminatedRhs, hr, Bool.false_eq_true, if_false]

/-- C2: direct-mode elimination `EliminateEssentialBCFromDofs(ess_dofs, sol, rhs, d)`
treats dof `i` as essential iff `ess_dofs[i] < 0`; afterwards (1) the off-diagonal
entries of row and column `i` of every essential `i` are zero, (3) its diagonal and
right-hand side follow the policy (`d = 0`: unit diagonal, `rhs[i] = sol[i]`;
otherwise the diagonal is kept and `rhs[i] = A[i][i] * sol[i]`), and (2) every free
row `r` has `rhs[r]` reduced by the sum over the essential `i` of `A[r][i] * sol[i]`
and keeps its entries in free columns. -/
theorem eliminate_essential_direct (bf : BilinearForm α) (A : SparseMatrix α)
    (ess_dofs : List Int) (sol rhs : Vector α) (d : Int)
    (hmat : bf.mat = some A) (hlen : ess_dofs.length = bf.height) :
    ∃ bf2 A2 rhs2, bf.EliminateEssentialBCFromDofs ess_dofs sol rhs d = some (bf2, rhs2) ∧
      bf2.mat = some A2 ∧
      (∀ i, i < bf.height → ess_dofs.getD i 0 < 0 →
        (∀ j, j ≠ i → A2.val i j = 0 ∧ A2.val j i = 0) ∧
        (d = 0 → A2.val i i = 1 ∧ rhs2 i = sol i) ∧
        (d ≠ 0 → A2.val i i = A.val i i ∧ rhs2 i = A.val i i * sol i)) ∧
      (∀ r, r < bf.height → ¬ ess_dofs.getD r 0 < 0 →
        rhs2 r = rhs r
          - essentialSum A sol (fun i => decide (ess_dofs.getD i 0 < 0)) bf.height r ∧
        ∀ c, ¬ ess_dofs.getD c 0 < 0 → A2.val r c = A.val r c) := by
  refine ⟨{ bf with
      mat := some (eliminatedMat A d (fun i => decide (ess_dofs.getD i 0 < 0))) },
    eliminatedMat A d (fun i => decide (ess_dofs.getD i 0 < 0)),
    eliminatedRhs A sol rhs d (fun i => decide (ess_dofs.getD i 0 < 0)) ess_dofs.length,
    ?_, rfl, ?_, ?_⟩
  · simp only [BilinearForm.EliminateEssentialBCFromDofs, hmat]
    rw [markerLoop_closed]
  · intro i _ hi
    have he := decide_eq_true hi
    exact ⟨fun j hj => eliminatedMat_ess_off A d _ i j he hj,
      fun hd => ⟨(eliminatedMat_ess_diag A d _ i he).1 hd,
        (eliminatedRhs_ess A sol rhs d _ _ i he).1 hd⟩,
      fun hd => ⟨(eliminatedMat_ess_diag A d _ i he).2 hd,
        (eliminatedRhs_ess A sol rhs d _ _ i he).2 hd⟩⟩
  · intro r _ hr
    have he := decide_eq_false hr
    refine ⟨?_, fun c hc => eliminatedMat_free A d _ r c he (decide_eq_false hc)⟩
    rw [eliminatedRhs_free A sol rhs d _ _ r he, hlen]

/-- Witness of C2: on the 3x3 operator `mat3` with `ess_dofs = [0, -1, 0]` and
`sol[1] = 5`, the right-hand sides of rows 0 and 2 decrease by `A[0][1] * 5` and
`A[2][1] * 5`, row and column 1 are cleared and `rhs[1] = 5`. -/
theorem eliminate_essential_direct_witness :
    ∃ bf2 A2 rhs2, form3.EliminateEssentialBCFromDofs [0, -1, 0] sol3 rhs3 0
        = some (bf2, rhs2) ∧ bf2.mat = some A2 ∧
      rhs2 0 = 100 - 12 * 5 ∧ rhs2 2 = 300 - 32 * 5 ∧ rhs2 1 = 5 ∧
      A2.val 1 1 = 1 ∧ A2.val 0 1 = 0 ∧ A2.val 1 2 = 0 ∧ A2.val 0 2 = 13 := by
  obtain ⟨bf2, A2, rhs2, h1, h2, hess, hfree⟩ :=
    eliminate_essential_direct form3 mat3 [0, -1, 0] sol3 rhs3 0 rfl rfl
  have e0 := hfree 0 (by decide) (by decide)
  have e2 := hfree 2 (by decide) (by decide)
  have e1 := hess 1 (by decide) (by decide)
  refine ⟨bf2, A2, rhs2, h1, h2, ?_, ?_, (e1.2.1 rfl).2, (e1.2.1 rfl).1,
    (e1.1 0 (by decide)).2, (e1.1 2 (by decide)).1, ?_⟩
  · rw [e0.1]; decide
  · rw [e2.1]; decide
  · rw [e0.2 2 (by decide)]; decide

/-! ## Recordable-mode elimination -/

theorem EliminateRowColAe_conserve (M Ae : SparseMatrix α) (x : Nat) (d : Int) (r c : Nat) :
    (M.EliminateRowColAe x Ae d).1.val r c + (M.EliminateRowColAe x Ae d).2.val r c
      = M.val r c + Ae.val r c := by
  simp only [SparseMatrix.EliminateRowColAe]
  by_cases hrc : r = x ∧ c = x
  · obtain ⟨hr, hc⟩ := hrc
    subst hr; subst hc
    by_cases hd : d = 0
    · simp only [and_self, if_true, hd]; ring
    · simp only [and_self, if_true, if_neg hd]
  · rw [if_neg hrc, if_neg hrc]
    by_cases h2 : r = x ∨ c = x
    · rw [if_pos h2, if_pos h2]; ring
    · rw [if_neg h2, if_neg h2]

theorem recordVDofs_conserve (d : Int) (vdofs : List Int)
    (st : SparseMatrix α × SparseMatrix α) (r c : Nat) :
    (recordVDofs d vdofs st).1.val r c + (recordVDofs d vdofs st).2.val r c
      = st.1.val r c + st.2.val r c := by
  induction vdofs generalizing st with
  | nil => rfl
  | cons v vs ih =>
    simp only [recordVDofs, List.foldl_cons]
    have h := ih (if v ≥ 0 then st.1.EliminateRowColAe v.toNat st.2 d
      else st.1.EliminateRowColAe (-1 - v).toNat st.2 d)
    simp only [recordVDofs] at h
    rw [h]
    split_ifs
    · exact EliminateRowColAe_conserve _ _ _ _ _ _
    · exact EliminateRowColAe_conserve _ _ _ _ _ _

theorem markerLoopDiag_closed (A : SparseMatrix α) (ess_dofs : List Int) (d : Int)
    (sol rhs : Vector α) (l : List Nat) :
    l.foldl (fun (st : SparseMatrix α) i =>
        if ess_dofs.getD i 0 < 0 then st.EliminateRowColDiag i d else st) A
      = (l.foldl (fun (st : SparseMatrix α × Vector α) i =>
          if ess_dofs.getD i 0 < 0 then st.1.EliminateRowCol i (sol i) st.2 d
          else st) (A, rhs)).1 := by
  induction l generalizing A rhs with
  | nil => rfl
  | cons i rest ih =>
    simp only [List.foldl_cons]
    by_cases hi : ess_dofs.getD i 0 < 0
    · rw [if_pos hi, if_pos hi]
      exact ih _ _
    · rw [if_neg hi, if_neg hi]
      exact ih _ _

/-- C8 (amended): the explicit-dof-list form `EliminateVDofs(vdofs, d)` leaves a
companion, and operator plus companion equals, at every position, the
pre-elimination operator plus the companion that existed before (nothing, when there
was none); the forms `EliminateEssentialBCFromDofs(ess_dofs, d)` and
`EliminateEssentialBC(bdr_attr_is_ess, d)` eliminate the marked rows and columns and
leave `mat_e` as it was, creating no companion. -/
theorem eliminate_vdofs_records (bf : BilinearForm α) (A : SparseMatrix α)
    (vdofs ess_dofs : List Int) (d : Int) (hmat : bf.mat = some A) :
    (∃ bf2 A2 Ae2, bf.EliminateVDofsAe vdofs d = some bf2 ∧ bf2.mat = some A2 ∧
      bf2.mat_e = some Ae2 ∧
      ∀ r c, A2.val r c + Ae2.val r c
        = A.val r c + (match bf.mat_e with
                       | none => 0
                       | some e => e.val r c)) ∧
    (∃ bf3, bf.EliminateEssentialBCFromDofsDiag ess_dofs d = some bf3 ∧
      bf3.mat_e = bf.mat_e ∧
      bf3.mat = some (eliminatedMat A d (fun i => decide (ess_dofs.getD i 0 < 0)))) ∧
    (∀ bdr_attr_is_ess, ∃ bf4, bf.EliminateEssentialBCDiag bdr_attr_is_ess d = some bf4 ∧
      bf4.mat_e = bf.mat_e) := by
  have hdiag : ∀ ess : List Int, bf.EliminateEssentialBCFromDofsDiag ess d
      = some { bf with mat := some (eliminatedMat A d (fun i => decide (ess.getD i 0 < 0))) } := by
    intro ess
    simp only [BilinearForm.EliminateEssentialBCFromDofsDiag, hmat]
    rw [markerLoopDiag_closed A ess d (fun _ => 0) (fun _ => 0), markerLoop_closed]
  refine ⟨?_, ⟨_, hdiag ess_dofs, rfl, rfl⟩, ?_⟩
  · have hres : ∀ Ae0 : SparseMatrix α,
        (match bf.mat_e with
         | none => SparseMatrix.empty bf.height bf.height
         | some e => e) = Ae0 →
        bf.EliminateVDofsAe vdofs d
          = some { bf with mat := some (recordVDofs d vdofs (A, Ae0)).1,
                           mat_e := some (recordVDofs d vdofs (A, Ae0)).2 } := by
      intro Ae0 h0
      simp only [BilinearForm.EliminateVDofsAe, hmat, h0]
      rfl
    refine ⟨_, (recordVDofs d vdofs (A, _)).1, (recordVDofs d vdofs (A, _)).2,
      hres _ rfl, rfl, rfl, ?_⟩
    intro r c
    rw [recordVDofs_conserve]
    cases bf.mat_e with
    | none => rfl
    | some e => rfl
  · intro bdr
    unfold BilinearForm.EliminateEssentialBCDiag
    split_ifs
    · exact ⟨_, hdiag _, rfl⟩
    · exact ⟨_, hdiag _, rfl⟩

/-- Witness of C8 (amended) on the 3x3 operator `mat3`, eliminating the vdof list
`[1]`: a companion exists, it holds the removed entry `(0, 1)`, and the operator has
zero there. -/
theorem eliminate_vdofs_records_witness :
    ∃ bf2 A2 Ae2, form3.EliminateVDofsAe [1] 0 = some bf2 ∧ bf2.mat = some A2 ∧
      bf2.mat_e = some Ae2 ∧ A2.val 0 1 + Ae2.val 0 1 = 12 ∧ A2.val 1 1 + Ae2.val 1 1 = 22 := by
  obtain ⟨⟨bf2, A2, Ae2, h1, h2, h3, h4⟩, _⟩ :=
    eliminate_vdofs_records form3 mat3 [1] [0, -1, 0] 0 rfl
  refine ⟨bf2, A2, Ae2, h1, h2, h3, ?_, ?_⟩
  · rw [h4 0 1]; decide
  · rw [h4 1 1]; decide

/-- Counterexample to C8: on the form `form3`, whose space marks the dofs 0 and 2 as
essential for the flagged boundary attribute, `EliminateEssentialBC([1], 0)` removes
the entry `(0, 1) = 12` from the operator and leaves no companion at all. -/
theorem essentialBC_leaves_no_companion :
    ∃ bf2 A2, form3.EliminateEssentialBCDiag [1] 0 = some bf2 ∧ bf2.mat = some A2 ∧
      bf2.mat_e = none ∧ mat3.val 0 1 = 12 ∧ A2.val 0 1 = 0 :=
  ⟨_, _, rfl, rfl, rfl, by decide, by decide⟩

/-! ## Recordable mode against direct mode -/

theorem directLoop_eq (sol : Vector α) (d : Int) (vdofs : List Int)
    (st : SparseMatrix α × Vector α) :
    vdofs.foldl (fun (st : SparseMatrix α × Vector α) vdof =>
      if vdof ≥ 0 then
        st.1.EliminateRowCol vdof.toNat (sol vdof.toNat) st.2 d
      else
        st.1.EliminateRowCol (-1 - vdof).toNat (sol (-1 - vdof).toNat) st.2 d) st
      = eliminateDofs sol d (vdofs.map decodeDof) st := by
  induction vdofs generalizing st with
  | nil => rfl
  | cons v vs ih =>
    simp only [List.foldl_cons, List.map_cons, eliminateDofs]
    rw [ih]
    by_cases hv : v ≥ 0
    · have h2 : ¬ v < 0 := not_lt.2 hv
      simp only [hv, if_true, decodeDof, if_neg h2, eliminateDofs]
    · have h2 : v < 0 := not_le.1 hv
      simp only [if_neg hv, decodeDof, if_pos h2, eliminateDofs]

theorem recordVDofs_fst (sol : Vector α) (d : Int) (vdofs : List Int)
    (M Ae : SparseMatrix α) (rhs : Vector α) :
    (recordVDofs d vdofs (M, Ae)).1
      = (eliminateDofs sol d (vdofs.map decodeDof) (M, rhs)).1 := by
  induction vdofs generalizing M Ae rhs with
  | nil => rfl
  | cons v vs ih =>
    simp only [recordVDofs, List.foldl_cons, List.map_cons, eliminateDofs]
    have h := fun M Ae rhs => ih M Ae rhs
    simp only [recordVDofs, eliminateDofs] at h
    by_cases hv : v ≥ 0
    · have h2 : ¬ v < 0 := not_lt.2 hv
      simp only [hv, if_true, decodeDof, if_neg h2]
      exact h _ _ _
    · have h2 : v < 0 := not_le.1 hv
      simp only [if_neg hv, decodeDof, if_pos h2]
      exact h _ _ _

theorem recordVDofs_snd_dims (d : Int) (vdofs : List Int) (M Ae : SparseMatrix α) :
    (recordVDofs d vdofs (M, Ae)).2.height = Ae.height ∧
    (recordVDofs d vdofs (M, Ae)).2.width = Ae.width := by
  induction vdofs generalizing M Ae with
  | nil => exact ⟨rfl, rfl⟩
  | cons v vs ih =>
    simp only [recordVDofs, List.foldl_cons]
    have h := fun M Ae => ih M Ae
    simp only [recordVDofs] at h
    split_ifs
    · exact h _ _
    · exact h _ _

theorem PartMult_nonneg (A : SparseMatrix α) (rows : List Int) (x y : Vector α)
    (hrows : ∀ v ∈ rows, 0 ≤ v) :
    A.PartMult rows x y
      = some (fun k => if k ∈ rows.map Int.toNat then A.rowDot x k else y k) := by
  unfold SparseMatrix.PartMult
  induction rows generalizing y with
  | nil => simp
  | cons v vs ih =>
    have hv : ¬ v < 0 := not_lt.2 (hrows v (List.mem_cons_self v vs))
    simp only [List.foldl_cons, if_neg hv]
    rw [ih _ (fun w hw => hrows w (List.mem_cons_of_mem v hw))]
    congr 1
    funext k
    by_cases hk : k ∈ vs.map Int.toNat
    · simp [hk]
    · by_cases hkv : k = v.toNat
      · simp [hkv]
      · simp only [List.map_cons, List.mem_cons, hkv, hk, or_self, if_false]

theorem rowDot_eliminated_ess (A : SparseMatrix α) (d : Int) (ess : Nat → Bool)
    (x : Vector α) (r : Nat) (hr : ess r = true) (hlt : r < A.width) :
    (eliminatedMat A d ess).rowDot x r
      = (if d = 0 then 1 else A.val r r) * x r := by
  unfold SparseMatrix.rowDot
  have hw : (eliminatedMat A d ess).width = A.width := rfl
  rw [hw, ← sum_range_single A.width r ((if d = 0 then 1 else A.val r r) * x r) hlt]
  congr 1
  apply List.map_congr_left
  intro c _
  by_cases hc : c = r
  · subst hc
    simp [eliminatedMat, hr]
  · have hc2 : ¬ r = c := fun h => hc h.symm
    simp [eliminatedMat, hr, hc, hc2]

theorem map_toNat_eq_decode (vdofs : List Int) (hv : ∀ v ∈ vdofs, 0 ≤ v) :
    vdofs.map Int.toNat = vdofs.map decodeDof := by
  apply List.map_congr_left
  intro v hvm
  have h2 : ¬ v < 0 := not_lt.2 (hv v hvm)
  simp only [decodeDof, if_neg h2]

theorem rowDot_companion_free (A M Ae : SparseMatrix α) (d : Int) (ess : Nat → Bool)
    (x : Vector α) (r : Nat) (hM : M = eliminatedMat A d ess)
    (hsum : ∀ r c, M.val r c + Ae.val r c = A.val r c) (hr : ess r = false) :
    Ae.rowDot x r = essentialSum A x ess Ae.width r := by
  unfold SparseMatrix.rowDot essentialSum
  congr 1
  apply List.map_congr_left
  intro c _
  have h1 : Ae.val r c = A.val r c - M.val r c := by
    rw [← hsum r c]; ring
  rw [h1, hM]
  by_cases hc : ess c = true
  · have hrc : ¬ r = c := by
      intro h
      rw [h, hc] at hr
      exact Bool.noConfusion hr
    simp [eliminatedMat, hr, hc, hrc]
  · have hc2 : ess c = false := by simpa using hc
    simp [eliminatedMat, hr, hc2]

/-- Recordable mode agrees with direct mode on vdof lists without negative entries:
for an operator `A` without companion and a list of in-range non-negative vdofs,
`EliminateVDofs(vdofs, d)` followed by `EliminateVDofsInRHS(vdofs, x, b)` yields the
operator and, on every row below `height`, the right-hand side that
`EliminateVDofs(vdofs, x, b, d)` yields. -/
theorem recordable_equiv_direct_nonneg (bf : BilinearForm α) (A : SparseMatrix α)
    (vdofs : List Int) (x b : Vector α) (d : Int)
    (hmat : bf.mat = some A) (hmat_e : bf.mat_e = none) (hw : A.width = bf.height)
    (hv : ∀ v ∈ vdofs, 0 ≤ v ∧ v.toNat < bf.height) :
    ∃ bfd rhsd bfr br, bf.EliminateVDofs vdofs x b d = some (bfd, rhsd) ∧
      bf.EliminateVDofsAe vdofs d = some bfr ∧
      bfr.EliminateVDofsInRHS vdofs x b = some br ∧
      bfr.mat = bfd.mat ∧ ∀ r, r < bf.height → br r = rhsd r := by
  have hnn : ∀ v ∈ vdofs, 0 ≤ v := fun v h => (hv v h).1
  have hmap := map_toNat_eq_decode vdofs hnn
  have hL : ∀ i ∈ vdofs.map decodeDof, i < bf.height := by
    intro i hi
    rw [← hmap] at hi
    obtain ⟨v, hvm, rfl⟩ := List.mem_map.1 hi
    exact (hv v hvm).2
  have hdir := eliminateDofs_from A x b d bf.height (vdofs.map decodeDof) hL
  have hfst : (recordVDofs d vdofs (A, SparseMatrix.empty bf.height bf.height)).1
      = eliminatedMat A d (fun i => decide (i ∈ vdofs.map decodeDof)) := by
    rw [recordVDofs_fst x d vdofs A _ b, hdir]
  have hdims := recordVDofs_snd_dims d vdofs A (SparseMatrix.empty bf.height bf.height)
  have hsum : ∀ r c,
      (recordVDofs d vdofs (A, SparseMatrix.empty bf.height bf.height)).1.val r c
        + (recordVDofs d vdofs (A, SparseMatrix.empty bf.height bf.height)).2.val r c
        = A.val r c := by
    intro r c
    rw [recordVDofs_conserve]
    simp [SparseMatrix.empty]
  refine ⟨{ bf with mat := some (eliminatedMat A d (fun i => decide (i ∈ vdofs.map decodeDof))) },
    eliminatedRhs A x b d (fun i => decide (i ∈ vdofs.map decodeDof)) bf.height,
    { bf with
      mat := some (recordVDofs d vdofs (A, SparseMatrix.empty bf.height bf.height)).1,
      mat_e := some (recordVDofs d vdofs (A, SparseMatrix.empty bf.height bf.height)).2 },
    (fun k => if k ∈ vdofs.map Int.toNat then
        (recordVDofs d vdofs (A, SparseMatrix.empty bf.height bf.height)).1.rowDot x k
      else (recordVDofs d vdofs (A, SparseMatrix.empty bf.height bf.height)).2.AddMult
        x b (-1) k),
    ?_, ?_, ?_, ?_, ?_⟩
  · simp only [BilinearForm.EliminateVDofs, hmat]
    rw [directLoop_eq, hdir]
  · simp only [BilinearForm.EliminateVDofsAe, hmat, hmat_e]
    rfl
  · simp only [BilinearForm.EliminateVDofsInRHS]
    exact PartMult_nonneg _ vdofs x _ hnn
  · simp only [hfst]
  · intro r hr
    simp only [hmap]
    by_cases hmem : r ∈ vdofs.map decodeDof
    · have hess : (fun i => decide (i ∈ vdofs.map decodeDof)) r = true := by simpa using hmem
      rw [if_pos hmem, hfst, rowDot_eliminated_ess A d _ x r hess (by rw [hw]; exact hr)]
      simp only [eliminatedRhs, hess, if_true]
      by_cases hd : d = 0
      · simp [hd]
      · simp [hd]
    · have hess : (fun i => decide (i ∈ vdofs.map decodeDof)) r = false := by simpa using hmem
      have hh : (recordVDofs d vdofs (A, SparseMatrix.empty bf.height bf.height)).2.height
          = bf.height := hdims.1
      have hwd : (recordVDofs d vdofs (A, SparseMatrix.empty bf.height bf.height)).2.width
          = bf.height := hdims.2
      rw [if_neg hmem]
      simp only [SparseMatrix.AddMult, hh, hr, if_true]
      rw [rowDot_companion_free A _ _ d _ x r hfst hsum hess, hwd]
      simp only [eliminatedRhs, hess, Bool.false_eq_true, if_false]
      ring

/-- Instance of the agreement of the two modes on the 3x3 operator `mat3` with the
vdof list `[1]`. -/
theorem recordable_equiv_direct_nonneg_witness :
    ∃ bfd rhsd bfr br, form3.EliminateVDofs [1] sol3 rhs3 0 = some (bfd, rhsd) ∧
      form3.EliminateVDofsAe [1] 0 = some bfr ∧
      bfr.EliminateVDofsInRHS [1] sol3 rhs3 = some br ∧
      bfr.mat = bfd.mat ∧ ∀ r, r < 3 → br r = rhsd r :=
  recordable_equiv_direct_nonneg form3 mat3 [1] sol3 rhs3 0 rfl rfl rfl
    (by intro v hv; have : v = 1 := by simpa using hv
        subst this; decide)

/-- C3 at the vdof list `[-1]` (dof 0 with flipped sign), with `sol = (2, 3, 4)`: direct
mode eliminates dof 0 and gives `rhs[0] = sol[0] = 2` and
`rhs[1] = 200 - A[1][0] * sol[0] = 158`; recordable mode eliminates dof 0 as well, but
`EliminateVDofsInRHS` hands the undecoded list to `PartMult` and produces no
right-hand side. -/
theorem recordable_negative_vdof_diverges :
    (∃ bfd rhsd, form3.EliminateVDofs [-1] (fun i => (i : Int) + 2) rhs3 0
        = some (bfd, rhsd) ∧ rhsd 0 = 2 ∧ rhsd 1 = 158) ∧
    (∃ bfr, form3.EliminateVDofsAe [-1] 0 = some bfr ∧
      bfr.EliminateVDofsInRHS [-1] (fun i => (i : Int) + 2) rhs3 = none) :=
  ⟨⟨_, _, rfl, by decide, by decide⟩, ⟨_, rfl, rfl⟩⟩

/-! ## Conforming projection -/

theorem Finalize_zero (A : SparseMatrix α) : A.Finalize 0 = A := by
  simp [SparseMatrix.Finalize]

theorem galerkin_val (P A : SparseMatrix α) (i j : Nat) :
    ((P.Transpose.Mult A).Mult P).val i j = galerkinEntry P A i j := by
  simp only [SparseMatrix.Mult, SparseMatrix.Transpose, galerkinEntry]
  congr 1
  apply List.map_congr_left
  intro l _
  rw [List.sum_map_mul_right]

theorem galerkin_dims (P A : SparseMatrix α) :
    ((P.Transpose.Mult A).Mult P).height = P.width ∧
    ((P.Transpose.Mult A).Mult P).width = P.width :=
  ⟨rfl, rfl⟩

theorem ConformingAssemble_some (bf : BilinearForm α) (A P : SparseMatrix α)
    (hmat : bf.mat = some A) (hP : bf.fes.GetConformingProlongation = some P) :
    bf.ConformingAssemble
      = some { bf with
          mat := some ((P.Transpose.Mult A).Mult P)
          mat_e := match bf.mat_e with
            | some Ae => some ((P.Transpose.Mult Ae).Mult P)
            | none => none
          height := P.width
          width := P.width } := by
  simp only [BilinearForm.ConformingAssemble, BilinearForm.Finalize, hmat, hP, Finalize_zero]
  cases bf.mat_e with
  | none => rfl
  | some Ae => simp only [Finalize_zero]; rfl

theorem ConformingAssemble_none (bf : BilinearForm α) (A : SparseMatrix α)
    (hmat : bf.mat = some A) (hP : bf.fes.GetConformingProlongation = none) :
    bf.ConformingAssemble = some bf := by
  simp only [BilinearForm.ConformingAssemble, BilinearForm.Finalize, hmat, hP, Finalize_zero]
  cases hme : bf.mat_e with
  | none =>
    simp only
    have : bf = { bf with mat := some A, mat_e := none } := by
      cases bf; simp_all
    exact congrArg some this.symm
  | some Ae =>
    simp only [Finalize_zero]
    have : bf = { bf with mat := some A, mat_e := some Ae } := by
      cases bf; simp_all
    exact congrArg some this.symm

/-- C9: with a prolongation `P`, `ConformingAssemble` multiplies the operator and the
companion by the same left factor `L = Pᵀ` and the same right factor `P`; both
results are square of size the number of columns of `P`, the form's height and width
are set to that size, and without a companion none is created. -/
theorem conforming_assemble_companion (bf : BilinearForm α) (A P : SparseMatrix α)
    (hmat : bf.mat = some A) (hP : bf.fes.GetConformingProlongation = some P) :
    ∃ bf2 L M, bf.ConformingAssemble = some bf2 ∧ L = P.Transpose ∧
      bf2.mat = some M ∧ M = (L.Mult A).Mult P ∧
      M.height = P.width ∧ M.width = P.width ∧
      bf2.height = P.width ∧ bf2.width = P.width ∧
      (∀ Ae, bf.mat_e = some Ae → ∃ Me, bf2.mat_e = some Me ∧ Me = (L.Mult Ae).Mult P ∧
        Me.height = P.width ∧ Me.width = P.width ∧
        ∀ i j, Me.val i j = galerkinEntry P Ae i j) ∧
      (bf.mat_e = none → bf2.mat_e = none) := by
  refine ⟨_, P.Transpose, _, ConformingAssemble_some bf A P hmat hP, rfl, rfl, rfl, rfl, rfl,
    rfl, rfl, ?_, ?_⟩
  · intro Ae hAe
    refine ⟨(P.Transpose.Mult Ae).Mult P, ?_, rfl, rfl, rfl, fun i j => galerkin_val P Ae i j⟩
    simp only [hAe]
  · intro hne
    simp only [hne]

/-- Witness of C9 on `shearForm`, whose operator is the identity and whose companion
is `P = [[1, 1], [0, 1]]`: the companion becomes `Pᵀ P P`, with entry `(1, 1) = 3`. -/
theorem conforming_assemble_companion_witness :
    ∃ bf2 Me, shearForm.ConformingAssemble = some bf2 ∧ bf2.mat_e = some Me ∧
      bf2.height = 2 ∧ bf2.width = 2 ∧ Me.height = 2 ∧ Me.width = 2 ∧ Me.val 1 1 = 3 := by
  obtain ⟨bf2, L, M, h1, _, _, _, _, _, h2, h3, h4, _⟩ :=
    conforming_assemble_companion shearForm eye2 shearP rfl rfl
  obtain ⟨Me, h5, _, h6, h7, h8⟩ := h4 shearP rfl
  refine ⟨bf2, Me, h1, h5, h2, h3, h6, h7, ?_⟩
  rw [h8]; decide

theorem galerkinEntry_identity (P A : SparseMatrix α) (n i j : Nat)
    (hPh : P.height = n) (hAw : A.width = n)
    (hid : ∀ k l, k < n → l < n → P.val k l = if k = l then 1 else 0)
    (hi : i < n) (hj : j < n) :
    galerkinEntry P A i j = A.val i j := by
  unfold galerkinEntry
  rw [hPh, hAw, ← sum_range_single n j (A.val i j) hj]
  congr 1
  apply List.map_congr_left
  intro l hl
  have hl2 := List.mem_range.1 hl
  have hinner : ((List.range n).map (fun k => P.val k i * A.val k l * P.val l j)).sum
      = A.val i l * P.val l j := by
    rw [← sum_range_single n i (A.val i l * P.val l j) hi]
    congr 1
    apply List.map_congr_left
    intro k hk
    rw [hid k i (List.mem_range.1 hk) hi]
    by_cases hki : k = i
    · subst hki; simp
    · simp [hki]
  rw [hinner, hid l j hl2 hj]
  by_cases hlj : l = j
  · subst hlj; simp
  · simp [hlj]

/-- C10: without a prolongation `ConformingAssemble` leaves every entry of the operator
and of the companion, and the height and width, as they were; with the identity of
the form's size as prolongation (operator and companion having that many columns)
every entry `(i, j)` within that size of the operator and of the companion, and the
height and width, are unchanged as well. -/
theorem conforming_assemble_no_reduction (bf : BilinearForm α) (A : SparseMatrix α)
    (hmat : bf.mat = some A) :
    (bf.fes.GetConformingProlongation = none →
      ∃ bf2 M, bf.ConformingAssemble = some bf2 ∧ bf2.mat = some M ∧
        (∀ i j, M.val i j = A.val i j) ∧
        bf2.height = bf.height ∧ bf2.width = bf.width ∧ bf2.mat_e = bf.mat_e) ∧
    (∀ P, bf.fes.GetConformingProlongation = some P →
      P.height = bf.height → P.width = bf.height →
      (∀ k l, k < bf.height → l < bf.height → P.val k l = if k = l then 1 else 0) →
      bf.width = bf.height → A.width = bf.height →
      (∀ Ae, bf.mat_e = some Ae → Ae.width = bf.height) →
      ∃ bf2 M, bf.ConformingAssemble = some bf2 ∧ bf2.mat = some M ∧
        (∀ i j, i < bf.height → j < bf.height → M.val i j = A.val i j) ∧
        bf2.height = bf.height ∧ bf2.width = bf.width ∧
        (∀ Ae, bf.mat_e = some Ae → ∃ Me, bf2.mat_e = some Me ∧
          ∀ i j, i < bf.height → j < bf.height → Me.val i j = Ae.val i j) ∧
        (bf.mat_e = none → bf2.mat_e = none)) := by
  constructor
  · intro hP
    exact ⟨bf, A, ConformingAssemble_none bf A hmat hP, hmat, fun _ _ => rfl, rfl, rfl, rfl⟩
  · intro P hP hPh hPw hid hsq hAw hAe
    refine ⟨_, _, ConformingAssemble_some bf A P hmat hP, rfl, ?_, hPw, ?_, ?_, ?_⟩
    · intro i j hi hj
      rw [galerkin_val]
      exact galerkinEntry_identity P A bf.height i j hPh hAw hid hi hj
    · exact hPw.trans hsq.symm
    · intro Ae hAe2
      refine ⟨(P.Transpose.Mult Ae).Mult P, ?_, ?_⟩
      · simp only [hAe2]
      · intro i j hi hj
        rw [galerkin_val]
        exact galerkinEntry_identity P Ae bf.height i j hPh (hAe Ae hAe2) hid hi hj
    · intro hne
      simp only [hne]

/-- Witness of C10: on `identityForm`, whose prolongation is the 2x2 identity, the
operator `[[1, 1], [0, 1]]` keeps its entries and the form keeps its size. -/
theorem conforming_assemble_no_reduction_witness :
    ∃ bf2 M, identityForm.ConformingAssemble = some bf2 ∧ bf2.mat = some M ∧
      M.val 0 0 = 1 ∧ M.val 0 1 = 1 ∧ M.val 1 0 = 0 ∧ M.val 1 1 = 1 ∧
      bf2.height = 2 ∧ bf2.width = 2 ∧ bf2.mat_e = none := by
  obtain ⟨bf2, M, h1, h2, h3, h4, h5, _, h6⟩ :=
    (conforming_assemble_no_reduction identityForm shearP rfl).2 eye2 rfl rfl rfl
      (by intro k l hk hl
          have hk2 : k < 2 := hk
          have hl2 : l < 2 := hl
          interval_cases k <;> interval_cases l <;> decide)
      rfl rfl (by intro Ae hAe; exact absurd hAe (by simp [identityForm, BilinearForm.new]))
  refine ⟨bf2, M, h1, h2, ?_, ?_, ?_, ?_, h4, h5, h6 rfl⟩
  · rw [h3 0 0 (by decide) (by decide)]; decide
  · rw [h3 0 1 (by decide) (by decide)]; decide
  · rw [h3 1 0 (by decide) (by decide)]; decide
  · rw [h3 1 1 (by decide) (by decide)]; decide

/-! ## The element-matrix cache -/

/-- C7 (amended): when some element reports a dof count different from that of element
0 and a domain integrator is registered, `ComputeElementMatrices` fails with a fatal
error and returns no cache in a build with `MFEM_DEBUG`, provided no cache exists
yet; in a build without `MFEM_DEBUG` it makes no check and returns a cache, and when
a cache exists already it returns at once in either build. -/
theorem compute_element_matrices_uniform_check (bf : BilinearForm α) (i : Nat)
    (hd : bf.dbfi ≠ []) (hi : i < bf.fes.GetNE)
    (hne : bf.fes.GetFEDof i * bf.fes.GetVDim ≠ bf.fes.GetFEDof 0 * bf.fes.GetVDim) :
    (bf.element_matrices = none →
      (∃ msg, bf.ComputeElementMatrices true = .error msg) ∧
      (∃ bf2 T, bf.ComputeElementMatrices false = .ok bf2 ∧
        bf2.element_matrices = some T)) ∧
    (∀ T, bf.element_matrices = some T →
      ∀ debug, bf.ComputeElementMatrices debug = .ok bf) := by
  have hlen : bf.dbfi.length ≠ 0 := fun h => hd (List.length_eq_zero.1 h)
  have hNE : bf.fes.GetNE ≠ 0 := fun h => by rw [h] at hi; exact Nat.not_lt_zero i hi
  constructor
  · intro hcache
    have hcond : ¬ (bf.element_matrices.isSome = true ∨ bf.dbfi.length = 0 ∨
        bf.fes.GetNE = 0) := by
      rw [hcache]
      simp [hlen, hNE]
    constructor
    · obtain ⟨msg, hmsg⟩ := computeElementLoop_error bf.fes bf.dbfi
        (bf.fes.GetFEDof 0 * bf.fes.GetVDim) (List.range bf.fes.GetNE)
        ⟨i, List.mem_range.2 hi, fun h => hne h.symm⟩
        { SizeI := bf.fes.GetFEDof 0 * bf.fes.GetVDim,
          SizeJ := bf.fes.GetFEDof 0 * bf.fes.GetVDim,
          SizeK := bf.fes.GetNE, data := fun _ _ _ => 0 }
      refine ⟨msg, ?_⟩
      simp only [BilinearForm.ComputeElementMatrices, if_neg hcond, hmsg]
    · obtain ⟨T, hT⟩ := computeElementLoop_release bf.fes bf.dbfi
        (bf.fes.GetFEDof 0 * bf.fes.GetVDim) (List.range bf.fes.GetNE)
        { SizeI := bf.fes.GetFEDof 0 * bf.fes.GetVDim,
          SizeJ := bf.fes.GetFEDof 0 * bf.fes.GetVDim,
          SizeK := bf.fes.GetNE, data := fun _ _ _ => 0 }
      refine ⟨{ bf with element_matrices := some T }, T, ?_, rfl⟩
      simp only [BilinearForm.ComputeElementMatrices, if_neg hcond, hT]
  · intro T hT debug
    simp only [BilinearForm.ComputeElementMatrices, hT, Option.isSome_some, true_or, if_true]

/-- Witness of C7 (amended) on `mixedForm`, whose elements have 2 and 3 dofs. -/
theorem compute_element_matrices_uniform_check_witness :
    (∃ msg, mixedForm.ComputeElementMatrices true = .error msg) ∧
    (∃ bf2 T, mixedForm.ComputeElementMatrices false = .ok bf2 ∧
      bf2.element_matrices = some T) :=
  (compute_element_matrices_uniform_check mixedForm 1 (List.cons_ne_nil _ _)
    (by decide) (by decide)).1 rfl

/-- Counterexample to C7: in a build without `MFEM_DEBUG`, `ComputeElementMatrices` on
`mixedForm`, one domain integrator and two elements of 2 and 3 dofs, raises no error
and returns a form with a cache. -/
theorem compute_element_matrices_release_no_error :
    mixedForm.fes.GetFEDof 1 * mixedForm.fes.GetVDim
      ≠ mixedForm.fes.GetFEDof 0 * mixedForm.fes.GetVDim ∧
    ∃ bf2, mixedForm.ComputeElementMatrices false = .ok bf2 ∧
      bf2.element_matrices.isSome = true :=
  ⟨by decide, _, rfl, rfl⟩

/-! ## The predicted sparsity pattern -/

theorem mem_getD_map {β : Type} (l : List β) (f : β → List Nat) (i x : Nat) :
    x ∈ (l.map f).getD i [] ↔ ∃ a, l[i]? = some a ∧ x ∈ f a := by
  rw [List.getD_eq_getElem?_getD, List.getElem?_map]
  cases h : l[i]? with
  | none => simp
  | some a => simp

theorem mem_getD_iff (l : List (List Nat)) (i x : Nat) :
    x ∈ l.getD i [] ↔ ∃ a, l[i]? = some a ∧ x ∈ a := by
  rw [List.getD_eq_getElem?_getD]
  cases h : l[i]? with
  | none => simp
  | some a => simp

theorem Table.mem_Mult (A B : Table) (r c : Nat) :
    c ∈ (Table.Mult A B).rows.getD r [] ↔
      ∃ k, k ∈ A.rows.getD r [] ∧ c ∈ B.rows.getD k [] := by
  unfold Table.Mult
  rw [mem_getD_map]
  constructor
  · rintro ⟨a, ha, hc⟩
    rw [List.mem_dedup, List.mem_flatMap] at hc
    obtain ⟨k, hk, hck⟩ := hc
    exact ⟨k, (mem_getD_iff _ _ _).2 ⟨a, ha, hk⟩, hck⟩
  · rintro ⟨k, hk, hck⟩
    obtain ⟨a, ha, hka⟩ := (mem_getD_iff _ _ _).1 hk
    exact ⟨a, ha, by rw [List.mem_dedup, List.mem_flatMap]; exact ⟨k, hka, hck⟩⟩

theorem Table.mem_Transpose (A : Table) (n i j : Nat) :
    i ∈ (Table.Transpose A n).rows.getD j [] ↔
      j < n ∧ i < A.rows.length ∧ j ∈ A.rows.getD i [] := by
  unfold Table.Transpose
  rw [mem_getD_map]
  constructor
  · rintro ⟨a, ha, hi⟩
    have hj : j < n := by
      by_contra hn
      rw [List.getElem?_eq_none (by simpa using Nat.le_of_not_lt hn)] at ha
      exact Option.noConfusion ha
    have ha2 : a = j := by
      rw [List.getElem?_range hj] at ha
      exact (Option.some.inj ha).symm
    subst ha2
    rw [List.mem_filter, List.mem_range] at hi
    exact ⟨hj, hi.1, of_decide_eq_true hi.2⟩
  · rintro ⟨hj, hi, hmem⟩
    refine ⟨j, List.getElem?_range hj, ?_⟩
    rw [List.mem_filter, List.mem_range]
    exact ⟨hi, decide_eq_true hmem⟩

/-- Two dofs are adjacent in `Aᵀ A` when some row of `A` lists both. -/
theorem Table.mem_gram (A : Table) (n r c e : Nat) (hr : r < n)
    (hre : r ∈ A.rows.getD e []) (hce : c ∈ A.rows.getD e []) :
    c ∈ (Table.Mult (Table.Transpose A n) A).rows.getD r [] := by
  rw [Table.mem_Mult]
  refine ⟨e, ?_, hce⟩
  rw [Table.mem_Transpose]
  refine ⟨hr, ?_, hre⟩
  by_contra hlen
  rw [List.getD_eq_default _ _ (Nat.le_of_not_lt hlen)] at hre
  exact List.not_mem_nil r hre

theorem AllocMatrix_stored_of_element (bf : BilinearForm α)
    (hps : bf.precompute_sparsity ≠ 0) (hvd : bf.fes.GetVDim = 1)
    (hcons : bf.fes.Consistent bf.height) (e : Nat) (he : e < bf.fes.GetNE)
    (v w : Int) (hv : v ∈ bf.fes.GetElementVDofs e) (hw : w ∈ bf.fes.GetElementVDofs e) :
    bf.AllocMatrix.stored (decodeDof v) (decodeDof w) = true := by
  have hcond : ¬ (bf.precompute_sparsity = 0 ∨ bf.fes.GetVDim > 1) := by
    rw [hvd]; simp [hps]
  obtain ⟨hve, hvh⟩ := hcons.elem_dofs e he v hv
  obtain ⟨hwe, _⟩ := hcons.elem_dofs e he w hw
  unfold BilinearForm.AllocMatrix
  rw [if_neg hcond]
  simp only [SparseMatrix.ofTable, decide_eq_true_eq]
  by_cases hf : bf.fbfi.length > 0
  · rw [if_pos hf]
    obtain ⟨f, hfe⟩ := hcons.elem_faces e he
    exact Table.mem_gram _ bf.height _ _ f hvh
      ((Table.mem_Mult _ _ _ _).2 ⟨e, hfe, hve⟩) ((Table.mem_Mult _ _ _ _).2 ⟨e, hfe, hwe⟩)
  · rw [if_neg hf]
    exact Table.mem_gram _ bf.height _ _ e hvh hve hwe

theorem AllocMatrix_stored_of_face (bf : BilinearForm α)
    (hps : bf.precompute_sparsity ≠ 0) (hvd : bf.fes.GetVDim = 1)
    (hcons : bf.fes.Consistent bf.height) (hf : bf.fbfi.length ≠ 0)
    (i e1 e2 : Nat) (hi : i < bf.fes.GetMesh.GetNumFaces)
    (htr : bf.fes.GetMesh.GetInteriorFaceTransformations i = some (e1, e2))
    (v w : Int) (hv : v ∈ bf.fes.GetElementVDofs e1 ++ bf.fes.GetElementVDofs e2)
    (hw : w ∈ bf.fes.GetElementVDofs e1 ++ bf.fes.GetElementVDofs e2) :
    bf.AllocMatrix.stored (decodeDof v) (decodeDof w) = true := by
  have hcond : ¬ (bf.precompute_sparsity = 0 ∨ bf.fes.GetVDim > 1) := by
    rw [hvd]; simp [hps]
  have hf2 : bf.fbfi.length > 0 := Nat.pos_of_ne_zero hf
  obtain ⟨h1, h2, hm1, hm2⟩ := hcons.interior_faces i hi e1 e2 htr
  have key : ∀ u, u ∈ bf.fes.GetElementVDofs e1 ++ bf.fes.GetElementVDofs e2 →
      decodeDof u ∈ (Table.Mult bf.fes.GetMesh.GetFaceToElementTable
        bf.fes.GetElementToDofTable).rows.getD i [] ∧ decodeDof u < bf.height := by
    intro u hu
    rcases List.mem_append.1 hu with h | h
    · obtain ⟨ha, hb⟩ := hcons.elem_dofs e1 h1 u h
      exact ⟨(Table.mem_Mult _ _ _ _).2 ⟨e1, hm1, ha⟩, hb⟩
    · obtain ⟨ha, hb⟩ := hcons.elem_dofs e2 h2 u h
      exact ⟨(Table.mem_Mult _ _ _ _).2 ⟨e2, hm2, ha⟩, hb⟩
  unfold BilinearForm.AllocMatrix
  rw [if_neg hcond]
  simp only [SparseMatrix.ofTable, decide_eq_true_eq]
  rw [if_pos hf2]
  exact Table.mem_gram _ bf.height _ _ i (key v hv).2 (key v hv).1 (key w hw).1

theorem foldl_stored_inv {β : Type} (f : SparseMatrix α → β → SparseMatrix α)
    (Inv : SparseMatrix α → Prop) (l : List β)
    (h : ∀ M x, x ∈ l → Inv M → Inv (f M x)) (A : SparseMatrix α) (hA : Inv A) :
    Inv (l.foldl f A) := by
  induction l generalizing A with
  | nil => exact hA
  | cons x xs ih =>
    rw [List.foldl_cons]
    exact ih (fun M y hy => h M y (List.mem_cons_of_mem x hy)) _
      (h A x (List.mem_cons_self x xs) hA)

/-- Scattering at vdof lists whose decoded pairs all lie in a pattern keeps the stored
positions inside that pattern. -/
theorem AddSubMatrix_stored_inv (pat : Nat → Nat → Bool) (A : SparseMatrix α)
    (rows cols : List Int) (subm : DenseMatrix α) (skip_zeros : Int)
    (hpairs : ∀ v ∈ rows, ∀ w ∈ cols, pat (decodeDof v) (decodeDof w) = true)
    (hA : ∀ r c, A.stored r c = true → pat r c = true) :
    ∀ r c, (A.AddSubMatrix rows cols subm skip_zeros).stored r c = true → pat r c = true := by
  unfold SparseMatrix.AddSubMatrix
  apply foldl_stored_inv _ (fun M => ∀ r c, M.stored r c = true → pat r c = true) _ _ A hA
  intro M i hi hM
  apply foldl_stored_inv _ (fun M => ∀ r c, M.stored r c = true → pat r c = true) _ _ M hM
  intro N j hj hN r c
  have hi2 := List.mem_range.1 hi
  have hj2 := List.mem_range.1 hj
  have hvi : rows.getD i 0 ∈ rows := by
    rw [List.getD_eq_getElem _ _ hi2]; exact List.getElem_mem _
  have hwj : cols.getD j 0 ∈ cols := by
    rw [List.getD_eq_getElem _ _ hj2]; exact List.getElem_mem _
  have hp := hpairs _ hvi _ hwj
  generalize rows.getD i 0 = gi at hp
  generalize cols.getD j 0 = gj at hp
  by_cases hz : skip_zeros ≠ 0 ∧ subm.data i j = 0
  · simp only [hz, and_self, if_true, ne_eq, not_false_eq_true]
    exact hN r c
  · simp only [if_neg hz, SparseMatrix.AddEntry]
    by_cases hrc : r = decodeDof gi ∧ c = decodeDof gj
    · intro _
      rw [hrc.1, hrc.2]; exact hp
    · rw [if_neg hrc]
      exact hN r c

theorem foldl_integrators_stored_inv (pat : Nat → Nat → Bool) (vdofs : List Int)
    (bfi : List (BilinearFormIntegrator α)) (i : Nat) (skip_zeros : Int)
    (hpairs : ∀ v ∈ vdofs, ∀ w ∈ vdofs, pat (decodeDof v) (decodeDof w) = true)
    (mat : SparseMatrix α) (hmat : ∀ r c, mat.stored r c = true → pat r c = true) :
    ∀ r c, (bfi.foldl (fun mat I => mat.AddSubMatrix vdofs vdofs (I i) skip_zeros)
      mat).stored r c = true → pat r c = true :=
  foldl_stored_inv _ (fun M => ∀ r c, M.stored r c = true → pat r c = true) bfi
    (fun M I _ hM => AddSubMatrix_stored_inv pat M vdofs vdofs (I i) skip_zeros hpairs hM)
    mat hmat

theorem assembleDomain_stored_inv (pat : Nat → Nat → Bool) (fes : FiniteElementSpace α)
    (dbfi : List (BilinearFormIntegrator α)) (cache : Option (DenseTensor α))
    (skip_zeros : Int)
    (hpairs : ∀ e, e < fes.GetNE → ∀ v ∈ fes.GetElementVDofs e,
      ∀ w ∈ fes.GetElementVDofs e, pat (decodeDof v) (decodeDof w) = true)
    (mat : SparseMatrix α) (hmat : ∀ r c, mat.stored r c = true → pat r c = true) :
    ∀ r c, (assembleDomain fes dbfi cache skip_zeros mat).stored r c = true →
      pat r c = true := by
  unfold assembleDomain
  split_ifs with hd
  · apply foldl_stored_inv _ (fun M => ∀ r c, M.stored r c = true → pat r c = true) _ _ mat hmat
    intro M e he hM
    have he2 := List.mem_range.1 he
    cases cache with
    | none => exact foldl_integrators_stored_inv pat _ dbfi e skip_zeros (hpairs e he2) M hM
    | some T => exact AddSubMatrix_stored_inv pat M _ _ _ _ (hpairs e he2) hM
  · exact hmat

theorem assembleBoundary_stored_inv (pat : Nat → Nat → Bool) (fes : FiniteElementSpace α)
    (bbfi : List (BilinearFormIntegrator α)) (skip_zeros : Int)
    (hpairs : ∀ i, i < fes.GetNBE → ∀ v ∈ fes.GetBdrElementVDofs i,
      ∀ w ∈ fes.GetBdrElementVDofs i, pat (decodeDof v) (decodeDof w) = true)
    (mat : SparseMatrix α) (hmat : ∀ r c, mat.stored r c = true → pat r c = true) :
    ∀ r c, (assembleBoundary fes bbfi skip_zeros mat).stored r c = true → pat r c = true := by
  unfold assembleBoundary
  split_ifs with hb
  · apply foldl_stored_inv _ (fun M => ∀ r c, M.stored r c = true → pat r c = true) _ _ mat hmat
    intro M i hi hM
    exact foldl_integrators_stored_inv pat _ bbfi i skip_zeros
      (hpairs i (List.mem_range.1 hi)) M hM
  · exact hmat

theorem assembleInteriorFaces_stored_inv (pat : Nat → Nat → Bool)
    (fes : FiniteElementSpace α) (fbfi : List (BilinearFormIntegrator α)) (skip_zeros : Int)
    (hpairs : fbfi.length ≠ 0 → ∀ i, i < fes.GetMesh.GetNumFaces → ∀ e1 e2,
      fes.GetMesh.GetInteriorFaceTransformations i = some (e1, e2) →
      ∀ v ∈ fes.GetElementVDofs e1 ++ fes.GetElementVDofs e2,
      ∀ w ∈ fes.GetElementVDofs e1 ++ fes.GetElementVDofs e2,
        pat (decodeDof v) (decodeDof w) = true)
    (mat : SparseMatrix α) (hmat : ∀ r c, mat.stored r c = true → pat r c = true) :
    ∀ r c, (assembleInteriorFaces fes fbfi skip_zeros mat).stored r c = true →
      pat r c = true := by
  unfold assembleInteriorFaces
  split_ifs with hf
  · apply foldl_stored_inv _ (fun M => ∀ r c, M.stored r c = true → pat r c = true) _ _ mat hmat
    intro M i hi hM
    cases htr : fes.GetMesh.GetInteriorFaceTransformations i with
    | none => exact hM
    | some p =>
      obtain ⟨e1, e2⟩ := p
      exact foldl_integrators_stored_inv pat _ fbfi i skip_zeros
        (hpairs hf i (List.mem_range.1 hi) e1 e2 htr) M hM
  · exact hmat

theorem assembleBdrFaces_stored_inv (pat : Nat → Nat → Bool) (fes : FiniteElementSpace α)
    (bfbfi : List (BilinearFormIntegrator α)) (skip_zeros : Int)
    (hpairs : ∀ i, i < fes.GetNBE → ∀ e1,
      fes.GetMesh.GetBdrFaceTransformations i = some e1 →
      ∀ v ∈ fes.GetElementVDofs e1, ∀ w ∈ fes.GetElementVDofs e1,
        pat (decodeDof v) (decodeDof w) = true)
    (mat : SparseMatrix α) (hmat : ∀ r c, mat.stored r c = true → pat r c = true) :
    ∀ r c, (assembleBdrFaces fes bfbfi skip_zeros mat).stored r c = true → pat r c = true := by
  unfold assembleBdrFaces
  split_ifs with hbf
  · apply foldl_stored_inv _ (fun M => ∀ r c, M.stored r c = true → pat r c = true) _ _ mat hmat
    intro M i hi hM
    cases htr : fes.GetMesh.GetBdrFaceTransformations i with
    | none => exact hM
    | some e1 =>
      exact foldl_integrators_stored_inv pat _ bfbfi i skip_zeros
        (hpairs i (List.mem_range.1 hi) e1 htr) M hM
  · exact hmat

theorem ComputeElementMatrices_ok_cases (debug : Bool) (g g2 : BilinearForm α)
    (h : g.ComputeElementMatrices debug = .ok g2) :
    g2 = g ∨ ∃ T, g2 = { g with element_matrices := some T } := by
  unfold BilinearForm.ComputeElementMatrices at h
  split_ifs at h with hc
  · exact Or.inl (Except.ok.inj h).symm
  · cases hL : computeElementLoop debug g.fes g.dbfi (g.fes.GetFEDof 0 * g.fes.GetVDim)
        (List.range g.fes.GetNE)
        { SizeI := g.fes.GetFEDof 0 * g.fes.GetVDim, SizeJ := g.fes.GetFEDof 0 * g.fes.GetVDim,
          SizeK := g.fes.GetNE, data := fun _ _ _ => 0 } with
    | error e =>
      simp only [hL] at h
      exact Except.noConfusion h
    | ok T =>
      simp only [hL] at h
      exact Or.inr ⟨T, (Except.ok.inj h).symm⟩

theorem ComputeElementMatrices_release_ok (g : BilinearForm α) :
    ∃ g2, g.ComputeElementMatrices false = .ok g2 := by
  unfold BilinearForm.ComputeElementMatrices
  split_ifs with hc
  · exact ⟨g, rfl⟩
  · obtain ⟨T, hT⟩ := computeElementLoop_release g.fes g.dbfi
      (g.fes.GetFEDof 0 * g.fes.GetVDim) (List.range g.fes.GetNE)
      { SizeI := g.fes.GetFEDof 0 * g.fes.GetVDim, SizeJ := g.fes.GetFEDof 0 * g.fes.GetVDim,
        SizeK := g.fes.GetNE, data := fun _ _ _ => 0 }
    exact ⟨{ g with element_matrices := some T }, by simp only [hT]⟩

/-- The loops of `Assemble` depend on the form through its space, its integrators, its
cache and the operator they start from. -/
theorem assembledMat_congr (g1 g2 : BilinearForm α) (skip_zeros : Int)
    (hfes : g1.fes = g2.fes) (hd : g1.dbfi = g2.dbfi) (hb : g1.bbfi = g2.bbfi)
    (hf : g1.fbfi = g2.fbfi) (hbf : g1.bfbfi = g2.bfbfi)
    (hem : g1.element_matrices = g2.element_matrices)
    (hmat : (match g1.mat with
             | none => g1.AllocMatrix
             | some m => m)
          = (match g2.mat with
             | none => g2.AllocMatrix
             | some m => m)) :
    g1.assembledMat skip_zeros = g2.assembledMat skip_zeros := by
  simp only [BilinearForm.assembledMat, hfes, hd, hb, hf, hbf, hem, hmat]

/-- When `Assemble` returns, the operator it leaves is the one the loops build with
some cache. -/
theorem Assemble_ok_mat (openmp debug : Bool) (bf : BilinearForm α) (skip_zeros : Int)
    (bf2 : BilinearForm α) (h : bf.Assemble openmp debug skip_zeros = .ok bf2) :
    ∃ cache, bf2.mat
      = some (({ bf with element_matrices := cache } : BilinearForm α).assembledMat
          skip_zeros) := by
  -- the form after the allocation step
  obtain ⟨bfA, hA, hAfes, hAd, hAb, hAf, hAbf, hAem, hAmat⟩ :
      ∃ bfA : BilinearForm α, bfA = (match bf.mat with
          | none => bf.AllocMat
          | some _ => bf) ∧
        bfA.fes = bf.fes ∧ bfA.dbfi = bf.dbfi ∧ bfA.bbfi = bf.bbfi ∧ bfA.fbfi = bf.fbfi ∧
        bfA.bfbfi = bf.bfbfi ∧ bfA.element_matrices = bf.element_matrices ∧
        (match bfA.mat with
         | none => bfA.AllocMatrix
         | some m => m)
          = (match bf.mat with
             | none => bf.AllocMatrix
             | some m => m) := by
    cases hm : bf.mat with
    | none => exact ⟨bf.AllocMat, rfl, rfl, rfl, rfl, rfl, rfl, rfl, rfl⟩
    | some M0 => exact ⟨bf, rfl, rfl, rfl, rfl, rfl, rfl, rfl, by rw [hm]⟩
  have hstep : ∀ g : BilinearForm α, (g = bfA ∨ ∃ T, g = { bfA with element_matrices := some T }) →
      ∃ cache, g.assembledMat skip_zeros
        = ({ bf with element_matrices := cache } : BilinearForm α).assembledMat skip_zeros := by
    intro g hg
    rcases hg with rfl | ⟨T, rfl⟩
    · exact ⟨bf.element_matrices, assembledMat_congr _ _ skip_zeros hAfes hAd hAb hAf hAbf hAem
        (by rw [hAmat])⟩
    · exact ⟨some T, assembledMat_congr _ _ skip_zeros hAfes hAd hAb hAf hAbf rfl
        (by
          have : (match ({ bfA with element_matrices := some T } : BilinearForm α).mat with
              | none => ({ bfA with element_matrices := some T } : BilinearForm α).AllocMatrix
              | some m => m)
              = (match bfA.mat with
                 | none => bfA.AllocMatrix
                 | some m => m) := rfl
          rw [this, hAmat]; rfl)⟩
  unfold BilinearForm.Assemble at h
  rw [← hA] at h
  simp only at h
  split_ifs at h with hc
  · cases hcem : bfA.ComputeElementMatrices debug with
    | error e =>
      rw [hcem] at h
      exact Except.noConfusion h
    | ok g =>
      rw [hcem] at h
      have h2 := (Except.ok.inj h).symm
      obtain ⟨cache, hcache⟩ := hstep g (ComputeElementMatrices_ok_cases debug bfA g hcem)
      exact ⟨cache, by rw [h2, ← hcache]; rfl⟩
  · have h2 := (Except.ok.inj h).symm
    obtain ⟨cache, hcache⟩ := hstep bfA (Or.inl rfl)
    exact ⟨cache, by rw [h2, ← hcache]⟩

/-- `Assemble` returns in a build without `MFEM_USE_OPENMP` and in a build without
`MFEM_DEBUG`. -/
theorem Assemble_returns (openmp debug : Bool) (bf : BilinearForm α) (skip_zeros : Int)
    (hflags : openmp = false ∨ debug = false) :
    ∃ bf2, bf.Assemble openmp debug skip_zeros = .ok bf2 := by
  cases openmp with
  | false =>
    obtain ⟨bf2, h, _⟩ := Assemble_serial debug bf skip_zeros
    exact ⟨bf2, h⟩
  | true =>
    have hd : debug = false := by
      rcases hflags with h | h
      · exact Bool.noConfusion h
      · exact h
    subst hd
    unfold BilinearForm.Assemble
    simp only
    split_ifs with hc
    · obtain ⟨g2, hg2⟩ := ComputeElementMatrices_release_ok
        (match bf.mat with
         | none => bf.AllocMat
         | some _ => bf)
      rw [hg2]
      exact ⟨_, rfl⟩
    · exact ⟨_, rfl⟩

/-- The loops of `Assemble`, started from an operator whose pattern lies in the pattern
`AllocMat` builds for the form `bf0`, stay in that pattern when the assembling form
has the space of `bf0` and registers interior-face integrators only if `bf0` does. -/
theorem assembledMat_stored_within (bf0 bf : BilinearForm α) (skip_zeros : Int)
    (hfes : bf.fes = bf0.fes) (hps : bf0.precompute_sparsity ≠ 0)
    (hvd : bf0.fes.GetVDim = 1) (hcons : bf0.fes.Consistent bf0.height)
    (hff : bf.fbfi.length ≠ 0 → bf0.fbfi.length ≠ 0)
    (hinit : ∀ r c, (match bf.mat with
                     | none => bf.AllocMatrix
                     | some m => m).stored r c = true → bf0.AllocMatrix.stored r c = true)
    (r c : Nat) (hrc : (bf.assembledMat skip_zeros).stored r c = true) :
    bf0.AllocMatrix.stored r c = true := by
  have helem := AllocMatrix_stored_of_element bf0 hps hvd hcons
  have hface := AllocMatrix_stored_of_face bf0 hps hvd hcons
  simp only [BilinearForm.assembledMat, hfes] at hrc
  refine assembleBdrFaces_stored_inv bf0.AllocMatrix.stored bf0.fes bf.bfbfi skip_zeros ?_ _
    (assembleInteriorFaces_stored_inv bf0.AllocMatrix.stored bf0.fes bf.fbfi skip_zeros ?_ _
      (assembleBoundary_stored_inv bf0.AllocMatrix.stored bf0.fes bf.bbfi skip_zeros ?_ _
        (assembleDomain_stored_inv bf0.AllocMatrix.stored bf0.fes bf.dbfi bf.element_matrices
          skip_zeros ?_ _ hinit))) r c hrc
  · intro i hi e1 htr v hv w hw
    exact helem e1 (hcons.bdr_faces i hi e1 htr) v w hv hw
  · intro hf i hi e1 e2 htr v hv w hw
    exact hface (hff hf) i e1 e2 hi htr v w hv hw
  · intro i hi v hv w hw
    obtain ⟨e, he, hsub⟩ := hcons.bdr_dofs i hi
    obtain ⟨v2, hv2, hveq⟩ := List.mem_map.1 (hsub v hv)
    obtain ⟨w2, hw2, hweq⟩ := List.mem_map.1 (hsub w hw)
    rw [← hveq, ← hweq]
    exact helem e he v2 w2 hv2 hw2
  · intro e he v hv w hw
    exact helem e he v w hv hw

/-- C5 (amended): with sparsity prediction enabled and a single vector component, on a
consistent mesh and dof space, every position that `BilinearForm::Assemble` stores
into, for any registered domain, boundary, interior-face and boundary-face
integrators and in any build, lies in the dof-dof pattern that `AllocMat` built,
when `Assemble` itself allocates the operator, or when the operator was allocated
earlier for a form `bf0` of the same space and size that had an interior-face
integrator registered if the assembling form has one.  `Assemble` returns in a build
without `MFEM_USE_OPENMP` and in a build without `MFEM_DEBUG`. -/
theorem assemble_within_pattern (bf : BilinearForm α) (skip_zeros : Int)
    (openmp debug : Bool) (hvd : bf.fes.GetVDim = 1)
    (hcons : bf.fes.Consistent bf.height) :
    (bf.mat = none → bf.precompute_sparsity ≠ 0 →
      ∀ bf2, bf.Assemble openmp debug skip_zeros = .ok bf2 →
        ∃ M, bf2.mat = some M ∧
          ∀ r c, M.stored r c = true → bf.AllocMatrix.stored r c = true) ∧
    (∀ bf0 : BilinearForm α, bf.mat = some bf0.AllocMatrix → bf0.fes = bf.fes →
      bf0.height = bf.height → bf0.precompute_sparsity ≠ 0 →
      (bf.fbfi ≠ [] → bf0.fbfi ≠ []) →
      ∀ bf2, bf.Assemble openmp debug skip_zeros = .ok bf2 →
        ∃ M, bf2.mat = some M ∧
          ∀ r c, M.stored r c = true → bf0.AllocMatrix.stored r c = true) ∧
    (openmp = false ∨ debug = false →
      ∃ bf2, bf.Assemble openmp debug skip_zeros = .ok bf2) := by
  refine ⟨fun hmat hps bf2 h => ?_, fun bf0 hmat hfes hh hps hff bf2 h => ?_,
    Assemble_returns openmp debug bf skip_zeros⟩
  · obtain ⟨cache, hc⟩ := Assemble_ok_mat openmp debug bf skip_zeros bf2 h
    refine ⟨_, hc, fun r c hrc => ?_⟩
    refine assembledMat_stored_within bf { bf with element_matrices := cache } skip_zeros
      rfl hps hvd hcons (fun x => x) ?_ r c hrc
    intro r c hst
    simp only [hmat] at hst
    exact hst
  · obtain ⟨cache, hc⟩ := Assemble_ok_mat openmp debug bf skip_zeros bf2 h
    refine ⟨_, hc, fun r c hrc => ?_⟩
    refine assembledMat_stored_within bf0 { bf with element_matrices := cache } skip_zeros
      hfes.symm hps (by rw [hfes]; exact hvd) (by rw [hfes, hh]; exact hcons) ?_ ?_ r c hrc
    · intro hlen h0
      exact hff (fun hnil => hlen (by rw [show ({ bf with element_matrices := cache } :
        BilinearForm α).fbfi = bf.fbfi from rfl, hnil]; rfl)) (List.length_eq_zero.1 h0)
    · intro r c hst
      simp only [hmat] at hst
      exact hst

/-- The two-line-element space on `lineMesh` is consistent. -/
theorem lineSpace_consistent : lineSpace.Consistent 3 where
  elem_dofs := by
    intro e he v hv
    have he2 : e < 2 := he
    interval_cases e
    · have hv2 : v = 0 ∨ v = 1 := by simpa [lineSpace, twoLineSpace] using hv
      rcases hv2 with rfl | rfl <;> decide
    · have hv2 : v = 1 ∨ v = 2 := by simpa [lineSpace, twoLineSpace] using hv
      rcases hv2 with rfl | rfl <;> decide
  bdr_dofs := by
    intro i hi
    have hi2 : i < 2 := hi
    interval_cases i
    · refine ⟨0, by decide, ?_⟩
      intro v hv
      have hv2 : v = 0 := by simpa [lineSpace, twoLineSpace] using hv
      subst hv2; decide
    · refine ⟨1, by decide, ?_⟩
      intro v hv
      have hv2 : v = 2 := by simpa [lineSpace, twoLineSpace] using hv
      subst hv2; decide
  interior_faces := by
    intro i hi e1 e2 htr
    have hi2 : i < 3 := hi
    interval_cases i
    · exact Option.noConfusion (htr : (none : Option (Nat × Nat)) = some (e1, e2))
    · have h : ((0 : Nat), (1 : Nat)) = (e1, e2) := Option.some.inj htr
      obtain ⟨h1, h2⟩ := Prod.mk.inj h
      subst h1; subst h2
      decide
    · exact Option.noConfusion (htr : (none : Option (Nat × Nat)) = some (e1, e2))
  bdr_faces := by
    intro i hi e1 htr
    have hi2 : i < 2 := hi
    interval_cases i
    · have h : (0 : Nat) = e1 := Option.some.inj htr
      subst h; decide
    · have h : (1 : Nat) = e1 := Option.some.inj htr
      subst h; decide
  elem_faces := by
    intro e he
    have he2 : e < 2 := he
    interval_cases e
    · exact ⟨0, by decide⟩
    · exact ⟨2, by decide⟩

/-- Witness of C5 (amended).  On `patternForm`, where `Assemble` allocates the operator,
the interior-face integrator stores into `(0, 2)` and the predicted pattern holds
that position; on `borrowedForm`, whose operator the second constructor allocated
with an interior-face integrator registered, the assembled pattern stays in the
allocated one. -/
theorem assemble_within_pattern_witness :
    (∃ bf2 M, patternForm.Assemble false false 0 = .ok bf2 ∧ bf2.mat = some M ∧
      M.stored 0 2 = true ∧ patternForm.AllocMatrix.stored 0 2 = true) ∧
    (∃ bf2 M, borrowedForm.Assemble false false 0 = .ok bf2 ∧ bf2.mat = some M ∧
      M.stored 0 2 = true ∧
      (BilinearForm.newFrom lineSpace patternForm 1).AllocMatrix.stored 0 2 = true) := by
  obtain ⟨hA, _, _⟩ :=
    assemble_within_pattern patternForm 0 false false rfl lineSpace_consistent
  obtain ⟨_, hB, _⟩ :=
    assemble_within_pattern borrowedForm 0 false false rfl lineSpace_consistent
  obtain ⟨bf2, h2, e1, _⟩ := Assemble_serial false patternForm 0
  obtain ⟨M, hM, hsub⟩ := hA rfl (by decide) bf2 h2
  obtain ⟨bf3, h3, e3, _⟩ := Assemble_serial false borrowedForm 0
  obtain ⟨M3, hM3, hsub3⟩ := hB (BilinearForm.newFrom lineSpace patternForm 1) rfl rfl rfl
    (by decide) (fun _ => List.cons_ne_nil _ _) bf3 h3
  have s1 : M.stored 0 2 = true := by
    have : M = patternForm.assembledMat 0 := Option.some.inj (hM.symm.trans e1)
    rw [this]; decide
  have s3 : M3.stored 0 2 = true := by
    have : M3 = borrowedForm.assembledMat 0 := Option.some.inj (hM3.symm.trans e3)
    rw [this]; decide
  exact ⟨⟨bf2, M, h2, hM, s1, hsub 0 2 s1⟩, ⟨bf3, M3, h3, hM3, s3, hsub3 0 2 s3⟩⟩

/-- Counterexample to C5: `lateForm` is built by the second constructor with sparsity
prediction enabled and a domain integrator only, so `AllocMat` builds the pattern
from the elements, which lacks `(0, 2)`; an interior-face integrator is added next,
and `Assemble` keeps the allocated operator and stores into `(0, 2)`. -/
theorem assemble_late_face_integrator_leaves_pattern :
    ∃ P bf2 M, (BilinearForm.newFrom lineSpace twoLineForm 1).mat = some P ∧
      lateForm.mat = some P ∧ P.stored 0 2 = false ∧
      lateForm.Assemble false false 0 = .ok bf2 ∧ bf2.mat = some M ∧
      M.stored 0 2 = true :=
  ⟨_, _, _, rfl, rfl, by decide, rfl, rfl, by decide⟩

/-! ## Rectangular assembly -/

theorem foldl_integrators_val_rect (rows cols : List Int)
    (bfi : List (BilinearFormIntegrator α)) (i : Nat) (skip_zeros : Int)
    (mat : SparseMatrix α) (r c : Nat) :
    (bfi.foldl (fun mat I => mat.AddSubMatrix rows cols (I i) skip_zeros) mat).val r c
      = mat.val r c + (bfi.map (fun I => scatterEntry rows cols (I i).data r c)).sum :=
  foldl_val_eq _ (fun I => scatterEntry rows cols (I i).data r c) r c
    (fun M I => AddSubMatrix_val M rows cols (I i) skip_zeros r c) bfi mat

theorem AddSubMatrix_dims (A : SparseMatrix α) (rows cols : List Int)
    (subm : DenseMatrix α) (skip_zeros : Int) :
    (A.AddSubMatrix rows cols subm skip_zeros).height = A.height ∧
    (A.AddSubMatrix rows cols subm skip_zeros).width = A.width := by
  unfold SparseMatrix.AddSubMatrix
  apply foldl_stored_inv _ (fun M => M.height = A.height ∧ M.width = A.width) _ _ A ⟨rfl, rfl⟩
  intro M i _ hM
  apply foldl_stored_inv _ (fun M => M.height = A.height ∧ M.width = A.width) _ _ M hM
  intro N j _ hN
  by_cases hz : skip_zeros ≠ 0 ∧ subm.data i j = 0
  · simp only [hz, and_self, if_true, ne_eq, not_false_eq_true]
    exact hN
  · simp only [if_neg hz, SparseMatrix.AddEntry]
    exact hN

theorem mixedAssembleDomain_val (trial_fes test_fes : FiniteElementSpace α)
    (dom : List (BilinearFormIntegrator α)) (skip_zeros : Int) (mat : SparseMatrix α)
    (r c : Nat) :
    (mixedAssembleDomain trial_fes test_fes dom skip_zeros mat).val r c
      = mat.val r c + mixedDomainEntry trial_fes test_fes dom r c := by
  unfold mixedAssembleDomain mixedDomainEntry
  by_cases h : dom.length ≠ 0
  · rw [if_pos h]
    exact foldl_val_eq _ _ r c
      (fun M e => foldl_integrators_val_rect (test_fes.GetElementVDofs e)
        (trial_fes.GetElementVDofs e) dom e skip_zeros M r c) _ mat
  · rw [if_neg h]
    have : dom = [] := List.length_eq_zero.1 (not_not.1 h)
    subst this
    simp

theorem mixedAssembleDomain_dims (trial_fes test_fes : FiniteElementSpace α)
    (dom : List (BilinearFormIntegrator α)) (skip_zeros : Int) (mat : SparseMatrix α) :
    (mixedAssembleDomain trial_fes test_fes dom skip_zeros mat).height = mat.height ∧
    (mixedAssembleDomain trial_fes test_fes dom skip_zeros mat).width = mat.width := by
  unfold mixedAssembleDomain
  split_ifs
  · apply foldl_stored_inv _ (fun M => M.height = mat.height ∧ M.width = mat.width) _ _ mat
      ⟨rfl, rfl⟩
    intro M e _ hM
    apply foldl_stored_inv _ (fun M => M.height = mat.height ∧ M.width = mat.width) _ _ M hM
    intro N I _ hN
    have h := AddSubMatrix_dims N (test_fes.GetElementVDofs e) (trial_fes.GetElementVDofs e)
      (I e) skip_zeros
    exact ⟨h.1.trans hN.1, h.2.trans hN.2⟩
  · exact ⟨rfl, rfl⟩

/-- C11: started from no operator with only domain integrators registered,
`MixedBilinearForm::Assemble` on a form of the constructor's extents yields a
`testSize x trialSize` matrix whose entry `(r, c)` is the sum over the elements `e`,
the integrators `k` and the local pairs `(a, b)`, test vdof `a` of `e` decoding to `r`
and trial vdof `b` of `e` decoding to `c`, of the sign-adjusted local entry
`M_{e,k}[a][b]`. -/
theorem mixed_assemble_domain_entries (mbf : MixedBilinearForm α) (skip_zeros : Int)
    (hmat : mbf.mat = none) (hb : mbf.bdr = []) (hs : mbf.skt = [])
    (hh : mbf.height = mbf.test_fes.GetVSize) (hw : mbf.width = mbf.trial_fes.GetVSize) :
    ∃ M, (mbf.Assemble skip_zeros).mat = some M ∧
      M.height = mbf.test_fes.GetVSize ∧ M.width = mbf.trial_fes.GetVSize ∧
      ∀ r c, M.val r c = mixedDomainEntry mbf.trial_fes mbf.test_fes mbf.dom r c := by
  have hM : mbf.assembledMat skip_zeros
      = mixedAssembleDomain mbf.trial_fes mbf.test_fes mbf.dom skip_zeros
          (SparseMatrix.empty mbf.height mbf.width) := by
    simp only [MixedBilinearForm.assembledMat, hmat, hb, hs, mixedAssembleBoundary,
      mixedAssembleTrace, List.length_nil, ne_eq, not_true_eq_false, if_false]
  have hd := mixedAssembleDomain_dims mbf.trial_fes mbf.test_fes mbf.dom skip_zeros
    (SparseMatrix.empty mbf.height mbf.width)
  refine ⟨mbf.assembledMat skip_zeros, rfl, ?_, ?_, fun r c => ?_⟩
  · rw [hM, hd.1, ← hh]; rfl
  · rw [hM, hd.2, ← hw]; rfl
  · rw [hM, mixedAssembleDomain_val]
    simp [SparseMatrix.empty]

/-- Witness of C11: on a single element with test vdofs `[0, 1, 2]`, trial vdofs
`[0, 1]` and one domain integrator producing `[[1, 2], [3, 4], [5, 6]]`, the
assembled operator is 3x2 and equals that local matrix entry by entry. -/
theorem mixed_assemble_domain_entries_witness :
    ∃ M, (mixedForm32.Assemble 1).mat = some M ∧ M.height = 3 ∧ M.width = 2 ∧
      ∀ r c, r < 3 → c < 2 → M.val r c = (local32 0).data r c := by
  obtain ⟨M, h1, h2, h3, h4⟩ := mixed_assemble_domain_entries mixedForm32 1 rfl rfl rfl rfl rfl
  refine ⟨M, h1, h2, h3, ?_⟩
  intro r c hr hc
  rw [h4]
  interval_cases r <;> interval_cases c <;> decide

/-! ## Decoding of vdofs in the eliminations -/

theorem decodeDof_normalize (v : Int) : decodeDof (normalizeVDof v) = decodeDof v := by
  unfold decodeDof normalizeVDof
  by_cases hv : v < 0
  · have h2 : ¬ (-1 - v < 0) := by omega
    simp only [if_pos hv, if_neg h2]
  · simp only [if_neg hv]

theorem normalizeVDof_nonneg (v : Int) : 0 ≤ normalizeVDof v := by
  unfold normalizeVDof
  split_ifs <;> omega

/-- The index a vdof is decoded to is the non-negative integer `-1 - v` or `v` itself:
no negative index is formed. -/
theorem decodeDof_cast (v : Int) : ((decodeDof v : Nat) : Int) = normalizeVDof v := by
  unfold decodeDof normalizeVDof
  by_cases hv : v < 0
  · simp only [if_pos hv]
    exact Int.toNat_of_nonneg (by omega)
  · simp only [if_neg hv]
    exact Int.toNat_of_nonneg (by omega)

theorem map_decode_normalize (vdofs : List Int) :
    (vdofs.map normalizeVDof).map decodeDof = vdofs.map decodeDof := by
  rw [List.map_map]
  apply List.map_congr_left
  intro v _
  exact decodeDof_normalize v

theorem recordVDofs_eq_map (d : Int) (vdofs : List Int)
    (st : SparseMatrix α × SparseMatrix α) :
    recordVDofs d vdofs st
      = (vdofs.map decodeDof).foldl (fun st i => st.1.EliminateRowColAe i st.2 d) st := by
  induction vdofs generalizing st with
  | nil => rfl
  | cons v vs ih =>
    have h := fun st => ih st
    simp only [recordVDofs] at h
    simp only [recordVDofs, List.foldl_cons, List.map_cons]
    rw [h]
    by_cases hv : v ≥ 0
    · have h2 : ¬ v < 0 := not_lt.2 hv
      simp only [hv, if_true, decodeDof, if_neg h2]
    · have h2 : v < 0 := not_le.1 hv
      simp only [if_neg hv, decodeDof, if_pos h2]

/-- Both overloads of `BilinearForm::EliminateVDofs` decode their vdofs: replacing
every negative entry `v` of the list by `-1 - v` changes neither the operator, nor
the companion, nor the right-hand side. -/
theorem EliminateVDofs_normalize (bf : BilinearForm α) (vdofs : List Int)
    (sol rhs : Vector α) (d : Int) :
    bf.EliminateVDofs (vdofs.map normalizeVDof) sol rhs d = bf.EliminateVDofs vdofs sol rhs d ∧
    bf.EliminateVDofsAe (vdofs.map normalizeVDof) d = bf.EliminateVDofsAe vdofs d := by
  constructor
  · unfold BilinearForm.EliminateVDofs
    cases bf.mat with
    | none => rfl
    | some mat =>
      simp only
      rw [directLoop_eq, directLoop_eq, map_decode_normalize]
  · unfold BilinearForm.EliminateVDofsAe
    cases bf.mat with
    | none => rfl
    | some mat =>
      simp only
      have h := fun vd st => recordVDofs_eq_map (α := α) d vd st
      simp only [recordVDofs] at h
      rw [h, h, map_decode_normalize]

theorem foldl_decoded_normalize {σ : Type} (g : σ → Nat → σ) (l : List Int) (init : σ) :
    (l.map normalizeVDof).foldl (fun s (v : Int) => g s (if v < 0 then -1 - v else v).toNat)
        init
      = l.foldl (fun s (v : Int) => g s (if v < 0 then -1 - v else v).toNat) init := by
  induction l generalizing init with
  | nil => rfl
  | cons v vs ih =>
    simp only [List.map_cons, List.foldl_cons]
    rw [ih]
    have hn : ¬ normalizeVDof v < 0 := not_lt.2 (normalizeVDof_nonneg v)
    rw [if_neg hn]
    rfl

/-- The eliminations of `MixedBilinearForm` decode the boundary vdofs they derive:
replacing every negative entry `v` of the boundary-element vdof lists by `-1 - v`
changes neither the operator nor the right-hand side. -/
theorem mixed_elimination_normalize (mbf : MixedBilinearForm α)
    (bdr_attr_is_ess : List Int) (sol rhs : Vector α) :
    ((mbf.normalizeTrialBdr.EliminateTrialDofs bdr_attr_is_ess sol rhs).map
        (fun (p : MixedBilinearForm α × Vector α) => (p.1.mat, p.2))
      = (mbf.EliminateTrialDofs bdr_attr_is_ess sol rhs).map
        (fun (p : MixedBilinearForm α × Vector α) => (p.1.mat, p.2))) ∧
    ((mbf.normalizeTestBdr.EliminateTestDofs bdr_attr_is_ess).map
        (fun (m : MixedBilinearForm α) => m.mat)
      = (mbf.EliminateTestDofs bdr_attr_is_ess).map
        (fun (m : MixedBilinearForm α) => m.mat)) := by
  constructor
  · unfold MixedBilinearForm.EliminateTrialDofs MixedBilinearForm.normalizeTrialBdr
    cases mbf.mat with
    | none => rfl
    | some mat =>
      simp only [FiniteElementSpace.normalizeBdr, Option.map_some']
      have hstep : (fun (cols_marker : List Int) i =>
          if bdr_attr_is_ess.getD (mbf.trial_fes.GetBdrAttribute i - 1).toNat 0 ≠ 0 then
            ((mbf.trial_fes.GetBdrElementVDofs i).map normalizeVDof).foldl
              (fun (cols_marker : List Int) (v : Int) =>
                cols_marker.set (if v < 0 then -1 - v else v).toNat 1) cols_marker
          else cols_marker)
          = (fun (cols_marker : List Int) i =>
          if bdr_attr_is_ess.getD (mbf.trial_fes.GetBdrAttribute i - 1).toNat 0 ≠ 0 then
            (mbf.trial_fes.GetBdrElementVDofs i).foldl
              (fun (cols_marker : List Int) (v : Int) =>
                cols_marker.set (if v < 0 then -1 - v else v).toNat 1) cols_marker
          else cols_marker) := by
        funext cols_marker i
        rw [foldl_decoded_normalize (fun (m : List Int) k => m.set k 1)]
      rw [hstep]
  · unfold MixedBilinearForm.EliminateTestDofs MixedBilinearForm.normalizeTestBdr
    cases mbf.mat with
    | none => rfl
    | some mat =>
      simp only [FiniteElementSpace.normalizeBdr, Option.map_some']
      have hstep : (fun (mat : SparseMatrix α) i =>
          if bdr_attr_is_ess.getD (mbf.test_fes.GetBdrAttribute i - 1).toNat 0 ≠ 0 then
            ((mbf.test_fes.GetBdrElementVDofs i).map normalizeVDof).foldl
              (fun (mat : SparseMatrix α) (v : Int) =>
                mat.EliminateRow (if v < 0 then -1 - v else v).toNat) mat
          else mat)
          = (fun (mat : SparseMatrix α) i =>
          if bdr_attr_is_ess.getD (mbf.test_fes.GetBdrAttribute i - 1).toNat 0 ≠ 0 then
            (mbf.test_fes.GetBdrElementVDofs i).foldl
              (fun (mat : SparseMatrix α) (v : Int) =>
                mat.EliminateRow (if v < 0 then -1 - v else v).toNat) mat
          else mat) := by
        funext mat i
        rw [foldl_decoded_normalize (fun (m : SparseMatrix α) k => m.EliminateRow k)]
      rw [hstep]

/-- C12 at the vdof list `[1, -3]` (dof 1, and dof 2 with flipped sign) on the 3x3
operator `mat3`, with `x = (2, 3, 4)` and `b = (100, 200, 300)`: the recording
`EliminateVDofs` decodes `-3` and leaves the same operator and companion as for the
list `[1, 2]`, but `EliminateVDofsInRHS` hands `-3` undecoded to `PartMult` and gives
no right-hand side, whereas with `-3` replaced by `2` it gives
`(100 - 12 * 3 - 13 * 4, 3, 4)`. -/
theorem inRHS_negative_vdof_not_decoded :
    ∃ bfr, form3.EliminateVDofsAe [1, -3] 0 = some bfr ∧
      form3.EliminateVDofsAe [1, 2] 0 = some bfr ∧
      bfr.EliminateVDofsInRHS [1, -3] (fun i => (i : Int) + 2) rhs3 = none ∧
      ∃ br, bfr.EliminateVDofsInRHS [1, 2] (fun i => (i : Int) + 2) rhs3 = some br ∧
        br 0 = 12 ∧ br 1 = 3 ∧ br 2 = 4 :=
  ⟨_, rfl, rfl, rfl, _, rfl, by decide, by decide, by decide⟩

end mfem
